import Mathlib

/-!
Verification of the LSVM "recursive zoom" video pipeline (two scripted
variants: `LSVM.py`, the settings-file batch script, and `gui.py`, the
Gradio variant).  The pure/algorithmic content of both scripts is embedded
shallowly below: the numeric-label formatter, the layer/manifest path
scheme, the per-stage compositor configuration (offsets, volume, audio
mix), and the driver loop with its failure behaviour modelled by an
injected failure oracle.  All file writes are modelled as recorded events;
the external encoder is opaque, so a "stage step" either succeeds
(producing its artifact record) or fails with the error kind the oracle
injects.
-/

namespace LSVM

/-! ## Decimal digit strings

Python renders numbers in decimal (`f-strings`); Lean's `Nat.repr` does the
same via `Nat.toDigitsCore`.  We relate that fuelled loop to a clean
recursion `digitsMSF` (most-significant digit first) and prove readback,
digit-class and nonemptiness facts used throughout. -/

/-- Decimal digits of `n`, most significant first (clean recursion used to
reason about `Nat.toDigits`). -/
def digitsMSF (n : ℕ) : List Char :=
  if h : n < 10 then [Nat.digitChar n]
  else digitsMSF (n / 10) ++ [Nat.digitChar (n % 10)]
  termination_by n
  decreasing_by exact Nat.div_lt_self (by omega) (by omega)

theorem toDigitsCore_eq_digitsMSF :
    ∀ (fuel n : ℕ) (ds : List Char), n < 10 ^ fuel → 0 < fuel →
      Nat.toDigitsCore 10 fuel n ds = digitsMSF n ++ ds := by
  intro fuel
  induction fuel with
  | zero => intro n ds _ hf; omega
  | succ f ih =>
    intro n ds h _
    rw [Nat.toDigitsCore]
    by_cases h10 : n < 10
    · have hdiv : n / 10 = 0 := Nat.div_eq_of_lt h10
      conv_rhs => rw [digitsMSF]
      rw [dif_pos h10]
      simp [hdiv, Nat.mod_eq_of_lt h10]
    · have hdiv : n / 10 ≠ 0 := by
        intro hz
        rw [Nat.div_eq_zero_iff (by omega)] at hz
        exact h10 hz
      have hlt : n / 10 < 10 ^ f := by
        have : n < 10 * 10 ^ f := by
          calc n < 10 ^ (f + 1) := h
          _ = 10 * 10 ^ f := by ring
        omega
      have hfpos : 0 < f := by
        by_contra hc
        have hf0 : f = 0 := by omega
        rw [hf0] at hlt
        simp at hlt
        exact hdiv hlt
      simp only [hdiv, if_false]
      rw [ih (n / 10) _ hlt hfpos]
      conv_rhs => rw [digitsMSF]
      rw [dif_neg h10]
      simp

theorem lt_ten_pow_succ_self (n : ℕ) : n < 10 ^ (n + 1) := by
  calc n < 2 ^ n := Nat.lt_two_pow n
  _ ≤ 10 ^ n := Nat.pow_le_pow_left (by omega) n
  _ ≤ 10 ^ (n + 1) := Nat.pow_le_pow_right (by omega) (by omega)

theorem toDigits_eq_digitsMSF (n : ℕ) :
    Nat.toDigits 10 n = digitsMSF n := by
  rw [Nat.toDigits,
    toDigitsCore_eq_digitsMSF (n + 1) n [] (lt_ten_pow_succ_self n) (by omega)]
  simp

/-- Value a decimal digit character names. -/
def charVal (c : Char) : ℕ := c.toNat - 48

/-- Read a most-significant-first decimal digit list back as a number. -/
def valDigits (l : List Char) : ℕ :=
  l.foldl (fun a c => 10 * a + charVal c) 0

theorem charVal_digitChar {m : ℕ} (h : m < 10) :
    charVal (Nat.digitChar m) = m := by
  interval_cases m <;> decide

theorem digitChar_isDigit {m : ℕ} (h : m < 10) :
    (Nat.digitChar m).isDigit = true := by
  interval_cases m <;> decide

theorem valDigits_append_digit (l : List Char) (c : Char) :
    valDigits (l ++ [c]) = 10 * valDigits l + charVal c := by
  simp [valDigits, List.foldl_append]

theorem valDigits_digitsMSF (n : ℕ) : valDigits (digitsMSF n) = n := by
  induction n using Nat.strong_induction_on with
  | _ n ih =>
    rw [digitsMSF]
    by_cases h : n < 10
    · rw [dif_pos h]
      simp [valDigits, charVal_digitChar h]
    · rw [dif_neg h]
      rw [valDigits_append_digit,
        ih (n / 10) (Nat.div_lt_self (by omega) (by omega)),
        charVal_digitChar (Nat.mod_lt n (by omega))]
      omega

theorem digitsMSF_ne_nil (n : ℕ) : digitsMSF n ≠ [] := by
  rw [digitsMSF]
  by_cases h : n < 10 <;> simp [h]

theorem digitsMSF_all_isDigit (n : ℕ) :
    ∀ c ∈ digitsMSF n, c.isDigit = true := by
  induction n using Nat.strong_induction_on with
  | _ n ih =>
    rw [digitsMSF]
    by_cases h : n < 10
    · rw [dif_pos h]
      intro c hc
      simp at hc
      subst hc
      exact digitChar_isDigit h
    · rw [dif_neg h]
      intro c hc
      rcases List.mem_append.mp hc with hl | hr
      · exact ih (n / 10) (Nat.div_lt_self (by omega) (by omega)) c hl
      · simp at hr
        subst hr
        exact digitChar_isDigit (Nat.mod_lt n (by omega))

theorem digitsMSF_injective : Function.Injective digitsMSF := by
  intro a b h
  have ha := valDigits_digitsMSF a
  have hb := valDigits_digitsMSF b
  rw [h, hb] at ha
  omega

theorem repr_eq_mk_digitsMSF (n : ℕ) :
    Nat.repr n = String.mk (digitsMSF n) := by
  rw [Nat.repr, toDigits_eq_digitsMSF]
  rfl

theorem repr_injective : Function.Injective Nat.repr := by
  intro a b h
  rw [repr_eq_mk_digitsMSF, repr_eq_mk_digitsMSF] at h
  exact digitsMSF_injective (by injection h)

theorem length_digitsMSF_of_lt {n e : ℕ} (h1 : 10 ^ e ≤ n) (h2 : n < 10 ^ (e + 1)) :
    (digitsMSF n).length = e + 1 := by
  induction e generalizing n with
  | zero =>
    rw [digitsMSF]
    have : n < 10 := by simpa using h2
    rw [dif_pos this]
    simp
  | succ e ih =>
    have h10 : ¬ n < 10 := by
      have : (10 : ℕ) ≤ 10 ^ (e + 1) := by
        calc (10 : ℕ) = 10 ^ 1 := by ring
        _ ≤ 10 ^ (e + 1) := Nat.pow_le_pow_right (by omega) (by omega)
      omega
    rw [digitsMSF]
    rw [dif_neg h10]
    simp only [List.length_append, List.length_cons, List.length_nil]
    have hlow : 10 ^ e ≤ n / 10 := by
      rw [Nat.le_div_iff_mul_le (by omega)]
      calc 10 ^ e * 10 = 10 ^ (e + 1) := by ring
      _ ≤ n := h1
    have hhigh : n / 10 < 10 ^ (e + 1) := by
      rw [Nat.div_lt_iff_lt_mul (by omega)]
      calc n < 10 ^ (e + 2) := h2
      _ = 10 ^ (e + 1) * 10 := by ring
    rw [ih hlow hhigh]

/-! ## Thousands grouping

Python's `f-string` format spec `{value:,}` renders a non-negative integer
as its decimal digits with a comma separator every three digits, counted
from the right.  `commaGroupNat` embeds that rendering; `stripSep` and
`sepOk` are spec-side decoders used to state what the rendering means. -/

/-- Split a (reversed, least-significant-first) digit list into groups of
three; the last group holds the 1–3 leftover most-significant digits. -/
def rchunks3 : List Char → List (List Char)
  | [] => []
  | [a] => [[a]]
  | [a, b] => [[a, b]]
  | a :: b :: c :: rest => [a, b, c] :: rchunks3 rest

/-- Join digit groups with comma separators. -/
def joinComma : List (List Char) → List Char
  | [] => []
  | [ch] => ch
  | ch :: rest => ch ++ ',' :: joinComma rest

/-- Embedding of Python `f-string` thousands grouping `{value:,}` for a
non-negative integer: decimal digits, comma every three digits from the
right. -/
def commaGroupNat (n : ℕ) : String :=
  String.mk (List.reverse (joinComma (rchunks3 (List.reverse (Nat.toDigits 10 n)))))

/-- Characters of a rendered label with the comma separators removed. -/
def stripSep (s : String) : List Char := s.data.filter (fun c => c != ',')

/-- Checker for comma placement, scanning a reversed string: groups of
exactly three digits separated by commas, with one to three digits in the
final (most significant) group. -/
def sepOkRev : ℕ → List Char → Bool
  | cnt, [] => decide (1 ≤ cnt ∧ cnt ≤ 3)
  | cnt, c :: rest =>
    if c = ',' then cnt == 3 && sepOkRev 0 rest
    else c.isDigit && decide (cnt < 3) && sepOkRev (cnt + 1) rest

/-- Separator placement is correct: every comma has exactly three digits to
its right-hand side before the next comma or the end. -/
def sepOk (s : String) : Bool := sepOkRev 0 s.data.reverse

theorem rchunks3_ne_nil : ∀ {l : List Char}, l ≠ [] → rchunks3 l ≠ []
  | [], h => absurd rfl h
  | [_], _ => by simp [rchunks3]
  | [_, _], _ => by simp [rchunks3]
  | _ :: _ :: _ :: _, _ => by simp [rchunks3]

theorem rchunks3_flatten : ∀ l : List Char, (rchunks3 l).flatten = l
  | [] => by simp [rchunks3]
  | [_] => by simp [rchunks3]
  | [_, _] => by simp [rchunks3]
  | a :: b :: c :: rest => by
    simp [rchunks3, rchunks3_flatten rest]

theorem rchunks3_mem : ∀ {l ch : List Char}, ch ∈ rchunks3 l →
    ch ≠ [] ∧ ch.length ≤ 3 ∧ ∀ c ∈ ch, c ∈ l := by
  intro l
  induction l using rchunks3.induct with
  | case1 => intro ch hch; simp [rchunks3] at hch
  | case2 a =>
    intro ch hch
    simp [rchunks3] at hch
    subst hch
    simp
  | case3 a b =>
    intro ch hch
    simp [rchunks3] at hch
    subst hch
    refine ⟨by simp, by simp, by intro c hc; simpa using hc⟩
  | case4 a b c rest ih =>
    intro ch hch
    rw [rchunks3] at hch
    rcases List.mem_cons.mp hch with rfl | htl
    · refine ⟨by simp, by simp, ?_⟩
      intro x hx
      simp at hx
      rcases hx with rfl | rfl | rfl <;> simp
    · obtain ⟨h1, h2, h3⟩ := ih htl
      refine ⟨h1, h2, fun x hx => ?_⟩
      have := h3 x hx
      simp [this]

theorem rchunks3_dropLast_len : ∀ {l : List Char},
    ∀ ch ∈ (rchunks3 l).dropLast, ch.length = 3 := by
  intro l
  induction l using rchunks3.induct with
  | case1 => simp [rchunks3]
  | case2 a => simp [rchunks3]
  | case3 a b => simp [rchunks3]
  | case4 a b c rest ih =>
    rw [rchunks3]
    by_cases hrest : rest = []
    · subst hrest
      simp [rchunks3]
    · rw [List.dropLast_cons_of_ne_nil (rchunks3_ne_nil hrest)]
      intro ch hch
      rcases List.mem_cons.mp hch with rfl | htl
      · simp
      · exact ih ch htl

theorem isDigit_ne_comma {c : Char} (h : c.isDigit = true) : c ≠ ',' := by
  intro hc; subst hc; simp at h

theorem sepOkRev_tail {ds : List Char} :
    ∀ cnt : ℕ, (∀ c ∈ ds, c.isDigit = true) → 1 ≤ cnt + ds.length →
      cnt + ds.length ≤ 3 → sepOkRev cnt ds = true := by
  induction ds with
  | nil =>
    intro cnt _ h1 h3
    simp at h1 h3
    simp [sepOkRev]
    omega
  | cons c t ih =>
    intro cnt hdig h1 h3
    have hc : c.isDigit = true := hdig c (by simp)
    rw [sepOkRev, if_neg (isDigit_ne_comma hc)]
    simp only [List.length_cons] at h1 h3
    have := ih (cnt + 1) (fun x hx => hdig x (by simp [hx])) (by omega) (by omega)
    simp [hc, this]
    omega

theorem sepOkRev_group {a b c : Char} {t : List Char}
    (ha : a.isDigit = true) (hb : b.isDigit = true) (hc : c.isDigit = true) :
    sepOkRev 0 (a :: b :: c :: ',' :: t) = sepOkRev 0 t := by
  rw [sepOkRev, if_neg (isDigit_ne_comma ha),
    sepOkRev, if_neg (isDigit_ne_comma hb),
    sepOkRev, if_neg (isDigit_ne_comma hc),
    sepOkRev, if_pos rfl]
  simp [ha, hb, hc]

theorem sepOkRev_joinComma :
    ∀ chunks : List (List Char), chunks ≠ [] →
      (∀ ch ∈ chunks, (∀ c ∈ ch, c.isDigit = true) ∧ 1 ≤ ch.length ∧ ch.length ≤ 3) →
      (∀ ch ∈ chunks.dropLast, ch.length = 3) →
      sepOkRev 0 (joinComma chunks) = true := by
  intro chunks
  induction chunks with
  | nil => intro h; exact absurd rfl h
  | cons ch rest ih =>
    intro _ hall hdl
    match rest with
    | [] =>
      obtain ⟨hd, h1, h3⟩ := hall ch (by simp)
      have hj : joinComma [ch] = ch := rfl
      rw [hj]
      exact sepOkRev_tail 0 hd (by omega) (by omega)
    | ch2 :: rest2 =>
      have hlen : ch.length = 3 := hdl ch (by simp [List.dropLast_cons₂])
      obtain ⟨hd, -, -⟩ := hall ch (by simp)
      match ch, hlen with
      | [a, b, c], _ =>
        have hj : joinComma ([a, b, c] :: ch2 :: rest2) =
            a :: b :: c :: ',' :: joinComma (ch2 :: rest2) := rfl
        rw [hj, sepOkRev_group (hd a (by simp)) (hd b (by simp)) (hd c (by simp))]
        refine ih (by simp) (fun x hx => hall x (by simp [hx])) ?_
        intro x hx
        refine hdl x ?_
        rw [List.dropLast_cons₂]
        simp [hx]

theorem joinComma_filter :
    ∀ chunks : List (List Char),
      (∀ ch ∈ chunks, ∀ c ∈ ch, c.isDigit = true) →
      (joinComma chunks).filter (fun c => c != ',') = chunks.flatten := by
  intro chunks
  induction chunks with
  | nil => intro _; rfl
  | cons ch rest ih =>
    intro hall
    have hch : ch.filter (fun c => c != ',') = ch := by
      rw [List.filter_eq_self]
      intro c hc
      simpa using isDigit_ne_comma (hall ch (by simp) c hc)
    match rest with
    | [] => simpa [joinComma] using hch
    | ch2 :: rest2 =>
      have hj : joinComma (ch :: ch2 :: rest2) =
          ch ++ ',' :: joinComma (ch2 :: rest2) := rfl
      rw [hj, List.filter_append, hch]
      have : (',' :: joinComma (ch2 :: rest2)).filter (fun c => c != ',') =
          (joinComma (ch2 :: rest2)).filter (fun c => c != ',') := by
        simp [List.filter_cons]
      rw [this, ih (fun x hx => hall x (by simp [hx]))]
      rfl

theorem stripSep_commaGroupNat (n : ℕ) :
    stripSep (commaGroupNat n) = digitsMSF n := by
  have hdig : ∀ ch ∈ rchunks3 (digitsMSF n).reverse, ∀ c ∈ ch, c.isDigit = true := by
    intro ch hch c hc
    obtain ⟨-, -, hmem⟩ := rchunks3_mem hch
    exact digitsMSF_all_isDigit n c (List.mem_reverse.mp (hmem c hc))
  show (String.mk _).data.filter _ = _
  simp only [commaGroupNat, toDigits_eq_digitsMSF]
  rw [List.filter_reverse, joinComma_filter _ hdig, rchunks3_flatten,
    List.reverse_reverse]

theorem valDigits_stripSep_commaGroupNat (n : ℕ) :
    valDigits (stripSep (commaGroupNat n)) = n := by
  rw [stripSep_commaGroupNat, valDigits_digitsMSF]

theorem sepOk_commaGroupNat (n : ℕ) : sepOk (commaGroupNat n) = true := by
  show sepOkRev 0 (String.mk _).data.reverse = true
  simp only [commaGroupNat, toDigits_eq_digitsMSF]
  rw [List.reverse_reverse]
  have hrev_ne : (digitsMSF n).reverse ≠ [] := by
    simpa using digitsMSF_ne_nil n
  refine sepOkRev_joinComma _ (rchunks3_ne_nil hrev_ne) ?_ rchunks3_dropLast_len
  intro ch hch
  obtain ⟨hne, hlen, hmem⟩ := rchunks3_mem hch
  refine ⟨fun c hc => digitsMSF_all_isDigit n c (List.mem_reverse.mp (hmem c hc)), ?_, hlen⟩
  have : ch.length ≠ 0 := fun hz => hne (List.eq_nil_of_length_eq_zero hz)
  omega

/-! ## Scientific-notation label

Both scripts render stages past the threshold as
`f-string` `{mantissa:.12f}e+{exp}` where (`LSVM.py` lines 148–153,
`gui.py` lines 276–281):

* `value` is the exact integer power of four,
* `exp = int(math.floor(math.log10(value)))` — for the powers of four the
  branch can receive (all at least `10 ^ 13`) the float `log10` is exact
  enough that this equals the true floor of `log10`, i.e. `Nat.log 10`,
* `mantissa_int = value // 10 ** (exp - 12)`,
* `mantissa = mantissa_int / 10 ** 12`: a 13-significant-digit integer
  scaled into `[1, 10)`.  `mantissa_int < 10 ^ 13 < 2 ^ 53` is exactly
  representable as a float and the decimal value `mantissa_int / 10 ^ 12`
  is never a rounding tie, so `{mantissa:.12f}` prints exactly the digits
  of `mantissa_int` with the point after the first digit.  The embedding
  therefore renders straight from `mantissa_int`. -/

/-- Exponent of the scientific label: the floor of `log10 value`. -/
def sciExp (n : ℕ) : ℕ := Nat.log 10 n

/-- Thirteen-significant-digit integer mantissa `value // 10 ** (exp - 12)`. -/
def mantissaInt (n : ℕ) : ℕ := n / 10 ^ (sciExp n - 12)

/-- Rendered scientific-notation label: mantissa with twelve fractional
digits, then `e+`, then the exponent. -/
def sciLabel (n : ℕ) : String :=
  let ds := Nat.toDigits 10 (mantissaInt n)
  String.mk (ds.take 1 ++ '.' :: ds.drop 1) ++ "e+" ++ Nat.repr (sciExp n)

/-- Boolean form of the spec's regular expression
`\d\.\d..12..e\+\d+` (one digit, a point, exactly twelve digits,
`e+`, at least one digit). -/
def matchesSciShape (s : String) : Bool :=
  match s.data with
  | d :: dot :: rest =>
    d.isDigit && (dot == '.') && (rest.take 12).all Char.isDigit
      && ((rest.take 12).length == 12)
      && (match rest.drop 12 with
          | e :: p :: ds => (e == 'e') && (p == '+') && !ds.isEmpty && ds.all Char.isDigit
          | _ => false)
  | _ => false

theorem sciExp_ge {n : ℕ} (h : 10 ^ 12 ≤ n) : 12 ≤ sciExp n := by
  have hn : n ≠ 0 := by positivity
  exact (Nat.pow_le_iff_le_log (by omega) hn).mp h

theorem mantissaInt_lower {n : ℕ} (h : 10 ^ 12 ≤ n) : 10 ^ 12 ≤ mantissaInt n := by
  have hn : n ≠ 0 := by positivity
  rw [mantissaInt, Nat.le_div_iff_mul_le (Nat.pos_pow_of_pos _ (by omega)), ← pow_add]
  have he : 12 + (sciExp n - 12) = sciExp n := by
    have := sciExp_ge h
    omega
  rw [he]
  exact Nat.pow_log_le_self 10 hn

theorem mantissaInt_upper {n : ℕ} (h : 10 ^ 12 ≤ n) : mantissaInt n < 10 ^ 13 := by
  rw [mantissaInt, Nat.div_lt_iff_lt_mul (Nat.pos_pow_of_pos _ (by omega)), ← pow_add]
  have he : 13 + (sciExp n - 12) = sciExp n + 1 := by
    have := sciExp_ge h
    omega
  rw [he]
  exact Nat.lt_pow_succ_log_self (by omega) n

/-- Reconstruction error of the truncated mantissa: below one part in
`10 ^ 12` of the value. -/
theorem mantissa_reconstruction {n : ℕ} (h : 10 ^ 12 ≤ n) :
    (n - mantissaInt n * 10 ^ (sciExp n - 12)) * 10 ^ 12 < n := by
  have hd : 0 < 10 ^ (sciExp n - 12) := Nat.pos_pow_of_pos _ (by omega)
  have hmod : n - mantissaInt n * 10 ^ (sciExp n - 12) = n % 10 ^ (sciExp n - 12) := by
    rw [mantissaInt]
    have hdm := Nat.div_add_mod' n (10 ^ (sciExp n - 12))
    omega
  rw [hmod]
  calc n % 10 ^ (sciExp n - 12) * 10 ^ 12
      < 10 ^ (sciExp n - 12) * 10 ^ 12 := by
        have := Nat.mod_lt n hd
        gcongr
    _ = 10 ^ (sciExp n - 12 + 12) := by rw [pow_add]
    _ = 10 ^ sciExp n := by
        have := sciExp_ge h
        congr 1
        omega
    _ ≤ n := Nat.pow_log_le_self 10 (by positivity)

theorem length_mantissa_digits {n : ℕ} (h : 10 ^ 12 ≤ n) :
    (digitsMSF (mantissaInt n)).length = 13 :=
  length_digitsMSF_of_lt (mantissaInt_lower h) (mantissaInt_upper h)

/-- Labels of the scientific branch always match the spec's regex shape
once the value has at least thirteen digits (true of every power that can
reach the branch). -/
theorem matchesSciShape_sciLabel {n : ℕ} (h : 10 ^ 12 ≤ n) :
    matchesSciShape (sciLabel n) = true := by
  have hlen := length_mantissa_digits h
  have hdig := digitsMSF_all_isDigit (mantissaInt n)
  rw [sciLabel, matchesSciShape]
  simp only [toDigits_eq_digitsMSF]
  match hm : digitsMSF (mantissaInt n), hlen with
  | d :: ds, _ =>
    rw [hm] at hdig hlen
    simp only [List.length_cons] at hlen
    have htake : (d :: ds).take 1 = [d] := by simp
    have hdrop : (d :: ds).drop 1 = ds := by simp
    rw [htake, hdrop]
    have hdata : (String.mk ([d] ++ '.' :: ds) ++ "e+" ++ Nat.repr (sciExp n)).data
        = d :: '.' :: (ds ++ 'e' :: '+' :: digitsMSF (sciExp n)) := by
      rw [String.data_append, String.data_append, repr_eq_mk_digitsMSF]
      simp
    rw [hdata]
    simp only []
    have htk : (ds ++ 'e' :: '+' :: digitsMSF (sciExp n)).take 12 = ds := by
      rw [List.take_append_of_le_length (by omega)]
      exact List.take_of_length_le (by omega)
    have hdp : (ds ++ 'e' :: '+' :: digitsMSF (sciExp n)).drop 12 =
        'e' :: '+' :: digitsMSF (sciExp n) := by
      rw [List.drop_append_of_le_length (by omega)]
      have : ds.drop 12 = [] := List.drop_eq_nil_of_le (by omega)
      rw [this]
      simp
    rw [htk, hdp]
    simp only []
    have h1 : d.isDigit = true := hdig d (by simp)
    have h2 : ds.all Char.isDigit = true := by
      rw [List.all_eq_true]
      intro c hc
      exact hdig c (by simp [hc])
    have h3 : (digitsMSF (sciExp n)).isEmpty = false := by
      rw [List.isEmpty_eq_false_iff_exists_mem]
      match hh : digitsMSF (sciExp n), digitsMSF_ne_nil (sciExp n) with
      | c :: t, _ => exact ⟨c, by simp⟩
    have h4 : (digitsMSF (sciExp n)).all Char.isDigit = true := by
      rw [List.all_eq_true]
      exact digitsMSF_all_isDigit (sciExp n)
    have hlen12 : ds.length = 12 := by omega
    simp [h1, h2, h3, h4, hlen12]

/-- Specialisation used to evaluate `sciLabel` at literals: once the floor
log10 is known, the label is a pure digit-string computation. -/
theorem sciLabel_concrete {n e : ℕ} (he : Nat.log 10 n = e) :
    sciLabel n = String.mk ((Nat.toDigits 10 (n / 10 ^ (e - 12))).take 1
        ++ '.' :: (Nat.toDigits 10 (n / 10 ^ (e - 12))).drop 1)
      ++ "e+" ++ Nat.repr e := by
  rw [sciLabel, mantissaInt, sciExp, he]

/-! ## Per-stage label text

`LSVM.py` threads a counter `number2` through its loop (initialised to 1;
the stage-0 label is the literal `1` hard-coded in the first drawtext
filter).  At the iteration that labels layer `k` the counter holds `k`.
The comma branch formats `4 ** number2` and then increments; the
scientific branch increments *first* and then formats `4 ** number2` —
this asymmetry is the off-by-one analysed in claim C4.  The branch also
contains a dead statement (`number = int(number.replace(",", ""))` at
`number2 == 21`) whose result is immediately overwritten; it has no
observable effect and is omitted.  `gui.py` instead recomputes
`4 ** current_stage_number` from scratch each loop. -/

/-- One execution of the label block of `LSVM.py` (lines 137–153): takes
the current `number2`, returns the text drawn on this iteration's layer
and the updated `number2`. -/
def lsvmLabelStep (number2 : ℕ) : String × ℕ :=
  if number2 ≤ 20 then (commaGroupNat (4 ^ number2), number2 + 1)
  else (sciLabel (4 ^ (number2 + 1)), number2 + 1)

/-- Label-state sequence: the text and counter after the label block of
iteration `i` (0-based), starting from `number2 = 1`. -/
def lsvmLabelSeq : ℕ → String × ℕ
  | 0 => lsvmLabelStep 1
  | i + 1 => lsvmLabelStep (lsvmLabelSeq i).2

/-- Text drawn on layer `k` by `LSVM.py`: the hard-coded `1` for layer 0,
otherwise the text produced by the label block of iteration `k - 1`. -/
def lsvmStageLabel (k : ℕ) : String :=
  if k = 0 then "1" else (lsvmLabelSeq (k - 1)).1

/-- Text drawn on layer `k ≥ 1` by `gui.py` (lines 267–281): comma
grouping of `4 ** k` up to the threshold 20, scientific notation of
`4 ** k` above it.  (Layer 0's text is the user-supplied initial text.) -/
def guiStageLabel (k : ℕ) : String :=
  if k ≤ 20 then commaGroupNat (4 ^ k) else sciLabel (4 ^ k)

theorem lsvmLabelStep_snd (m : ℕ) : (lsvmLabelStep m).2 = m + 1 := by
  rw [lsvmLabelStep]
  split <;> rfl

theorem lsvmLabelSeq_snd (i : ℕ) : (lsvmLabelSeq i).2 = i + 2 := by
  induction i with
  | zero => rw [lsvmLabelSeq, lsvmLabelStep_snd]
  | succ i ih => rw [lsvmLabelSeq, ih, lsvmLabelStep_snd]

theorem lsvmStageLabel_eq_step {k : ℕ} (h : 1 ≤ k) :
    lsvmStageLabel k = (lsvmLabelStep k).1 := by
  rw [lsvmStageLabel, if_neg (by omega)]
  match k, h with
  | 1, _ => rw [lsvmLabelSeq]
  | k + 2, _ =>
    have : k + 2 - 1 = k + 1 := by omega
    rw [this, lsvmLabelSeq, lsvmLabelSeq_snd]

theorem lsvmStageLabel_comma {k : ℕ} (h1 : 1 ≤ k) (h2 : k ≤ 20) :
    lsvmStageLabel k = commaGroupNat (4 ^ k) := by
  rw [lsvmStageLabel_eq_step h1, lsvmLabelStep, if_pos h2]

theorem lsvmStageLabel_sci {k : ℕ} (h : 21 ≤ k) :
    lsvmStageLabel k = sciLabel (4 ^ (k + 1)) := by
  rw [lsvmStageLabel_eq_step (by omega), lsvmLabelStep, if_neg (by omega)]

/-! ## Artifact paths

`LSVM.py` writes numbered pre-label composites to `output/K.mp4` and
labeled layers to `output/layerK.mp4`; the concat manifest lines name
`output/layerI.mp4` for `i in range(value + 1)`.  `gui.py` uses
`output_temp/K.mp4`, `output_temp/K_tmp_dyn.mp4` (the pre-normalization
temporary) and `output_temp/layerK.mp4`. -/

def lsvmLayerPath (k : ℕ) : String := "output/layer" ++ Nat.repr k ++ ".mp4"

def lsvmNumPath (k : ℕ) : String := "output/" ++ Nat.repr k ++ ".mp4"

def guiLayerPath (k : ℕ) : String := "output_temp/layer" ++ Nat.repr k ++ ".mp4"

def guiNumPath (k : ℕ) : String := "output_temp/" ++ Nat.repr k ++ ".mp4"

def guiTmpDynPath (k : ℕ) : String := "output_temp/" ++ Nat.repr k ++ "_tmp_dyn.mp4"

theorem append_repr_append_injective (p s : String) :
    Function.Injective (fun k : ℕ => p ++ Nat.repr k ++ s) := by
  intro a b h
  have hd : p.data ++ ((Nat.repr a).data ++ s.data)
      = p.data ++ ((Nat.repr b).data ++ s.data) := by
    have := congrArg String.data h
    simpa using this
  have h1 := List.append_cancel_left hd
  have h2 := List.append_cancel_right h1
  exact repr_injective (by
    cases ha : Nat.repr a with
    | mk la =>
      cases hb : Nat.repr b with
      | mk lb =>
        rw [ha, hb] at h2
        simp at h2
        rw [h2])

theorem lsvmLayerPath_injective : Function.Injective lsvmLayerPath :=
  append_repr_append_injective "output/layer" ".mp4"

theorem guiLayerPath_injective : Function.Injective guiLayerPath :=
  append_repr_append_injective "output_temp/layer" ".mp4"

theorem head_append_repr (p s : String) (a : ℕ) :
    ((p ++ Nat.repr a ++ s).data.drop p.data.length).head? =
      some (digitsMSF a).head! := by
  have hdd : (p ++ Nat.repr a ++ s).data = p.data ++ ((Nat.repr a).data ++ s.data) := by
    simp
  rw [hdd, List.drop_append_of_le_length (by omega), List.drop_length]
  rw [repr_eq_mk_digitsMSF]
  match hm : digitsMSF a, digitsMSF_ne_nil a with
  | c :: t, _ => simp

/-- Numbered pre-label composite paths and labeled layer paths never
coincide: after the common directory part, one starts with a decimal
digit, the other with the letter of `layer`. -/
theorem lsvmNumPath_ne_layerPath (a b : ℕ) : lsvmNumPath a ≠ lsvmLayerPath b := by
  intro h
  have hhead := head_append_repr "output/" ".mp4" a
  rw [show lsvmNumPath a = "output/" ++ Nat.repr a ++ ".mp4" from rfl] at h
  rw [h] at hhead
  have hlayer : lsvmLayerPath b = "output/" ++ ("layer" ++ Nat.repr b ++ ".mp4") := by
    rw [lsvmLayerPath]
    have : "output/layer" = "output/" ++ "layer" := rfl
    rw [this]
    simp [String.ext_iff]
  rw [hlayer] at hhead
  have hd2 : (("output/" : String) ++ ("layer" ++ Nat.repr b ++ ".mp4")).data
      = ("output/" : String).data ++ ("layer" ++ Nat.repr b ++ ".mp4").data := by simp
  rw [hd2, List.drop_append_of_le_length (by omega), List.drop_length] at hhead
  have hl : (("layer" ++ Nat.repr b ++ ".mp4").data).head? = some 'l' := by
    have hdd : ("layer" ++ Nat.repr b ++ ".mp4").data
        = ("layer" : String).data ++ ((Nat.repr b).data ++ (".mp4" : String).data) := by simp
    rw [hdd]
    rfl
  rw [List.nil_append, hl] at hhead
  replace hhead := hhead.symm
  have hdig : ∀ c ∈ digitsMSF a, c.isDigit = true := digitsMSF_all_isDigit a
  match hm : digitsMSF a, digitsMSF_ne_nil a with
  | c :: t, _ =>
    rw [hm] at hhead hdig
    simp at hhead
    have : c.isDigit = true := hdig c (by simp)
    rw [hhead] at this
    simp at this

theorem guiNumPath_ne_layerPath (a b : ℕ) : guiNumPath a ≠ guiLayerPath b := by
  intro h
  have hhead := head_append_repr "output_temp/" ".mp4" a
  rw [show guiNumPath a = "output_temp/" ++ Nat.repr a ++ ".mp4" from rfl] at h
  rw [h] at hhead
  have hlayer : guiLayerPath b = "output_temp/" ++ ("layer" ++ Nat.repr b ++ ".mp4") := by
    rw [guiLayerPath]
    have : "output_temp/layer" = "output_temp/" ++ "layer" := rfl
    rw [this]
    simp [String.ext_iff]
  rw [hlayer] at hhead
  have hd2 : (("output_temp/" : String) ++ ("layer" ++ Nat.repr b ++ ".mp4")).data
      = ("output_temp/" : String).data ++ ("layer" ++ Nat.repr b ++ ".mp4").data := by simp
  rw [hd2, List.drop_append_of_le_length (by omega), List.drop_length] at hhead
  have hl : (("layer" ++ Nat.repr b ++ ".mp4").data).head? = some 'l' := by
    have hdd : ("layer" ++ Nat.repr b ++ ".mp4").data
        = ("layer" : String).data ++ ((Nat.repr b).data ++ (".mp4" : String).data) := by simp
    rw [hdd]
    rfl
  rw [List.nil_append, hl] at hhead
  replace hhead := hhead.symm
  have hdig : ∀ c ∈ digitsMSF a, c.isDigit = true := digitsMSF_all_isDigit a
  match hm : digitsMSF a, digitsMSF_ne_nil a with
  | c :: t, _ =>
    rw [hm] at hhead hdig
    simp at hhead
    have : c.isDigit = true := hdig c (by simp)
    rw [hhead] at this
    simp at this

/-! ## Driver model

Both scripts drive the pipeline with a sequential loop.  External effects
(ffmpeg invocations, MoviePy reads/writes) are opaque: each can succeed or
raise, chosen here by an injected failure oracle.  Artifact creation,
clip-open input selection, overlay configuration and the concat manifest
are recorded as events.

Faithfulness notes for `LSVM.py` (lines 57–199):
* the loop body is wrapped in `try ... except FileNotFoundError: break`,
  so a FileNotFoundError stops the loop but the script then still writes
  the full `file_list.txt` for `range(value + 1)` and runs the concat
  subprocess (whose exit status is not checked) — any other exception
  (e.g. `ffmpeg.Error` from a failed encode) propagates and kills the
  script before the manifest or concat;
* iteration 0 creates `layer0` (text only, audio re-encoded to AAC at
  44100) and then composites from `file_paths[0]`; iteration `i ≥ 1`
  composites from `output/I.mp4`, the previous iteration's numbered
  pre-label output; every composite is followed by a drawtext pass with
  `c:a copy` producing `output/layerK.mp4`;
* `value = int(settings)` may be negative; `range(value)` and
  `range(value + 1)` are then empty, matching `Int.toNat` clamping. -/

/-- Error kinds relevant to the LSVM batch script's exception handling. -/
inductive ErrKind
  | fnf
  | encode
  deriving DecidableEq, Repr

/-- Audio treatment of a drawtext (text overlay) ffmpeg invocation. -/
inductive AudioMode
  | copy
  | reencodeAAC
  deriving DecidableEq, Repr

/-- Record of one text-overlay ffmpeg invocation. -/
structure OverlayEvent where
  stage : ℕ
  input : String
  text : String
  audio : AudioMode
  deriving DecidableEq, Repr

/-- Record of one 2x2 grid compositing step: which file the four
`VideoFileClip` handles open, and where the composite is written. -/
structure CompositeEvent where
  stage : ℕ
  input : String
  output : String
  deriving DecidableEq, Repr

/-- Failure-injection points of the batch script. -/
inductive LsvmStep
  | overlayZero
  | compositeStage (k : ℕ)
  | overlayStage (k : ℕ)
  deriving DecidableEq, Repr

/-- Stage index a failing step belongs to. -/
def lsvmStepStage : LsvmStep → ℕ
  | .overlayZero => 0
  | .compositeStage k => k
  | .overlayStage k => k

/-- Artifact/event accumulator of a batch-script run. -/
structure LsvmAcc where
  layers : List ℕ
  pres : List ℕ
  composites : List CompositeEvent
  overlays : List OverlayEvent
  deriving DecidableEq, Repr

def lsvmAccStart : LsvmAcc := ⟨[], [], [], []⟩

/-- Stage-0 work of iteration 0: the drawtext pass that creates `layer0`
with the literal text `1` and re-encoded AAC audio. -/
def lsvmStage0 (src : String) (o : LsvmStep → Option ErrKind) (s : LsvmAcc) :
    LsvmAcc × Option (LsvmStep × ErrKind) :=
  match o .overlayZero with
  | some e => (s, some (.overlayZero, e))
  | none =>
    ({ s with layers := s.layers ++ [0],
              overlays := s.overlays ++ [⟨0, src, "1", .reencodeAAC⟩] }, none)

/-- Stage-`i+1` work of iteration `i`: open four clips (from the source on
iteration 0, otherwise from the previous numbered composite), write the
numbered composite, then the drawtext pass with stream-copied audio. -/
def lsvmStageK (src : String) (o : LsvmStep → Option ErrKind) (i : ℕ) (s : LsvmAcc) :
    LsvmAcc × Option (LsvmStep × ErrKind) :=
  let inp := if i = 0 then src else lsvmNumPath i
  let k := i + 1
  let s1 := { s with composites := s.composites ++ [⟨k, inp, lsvmNumPath k⟩] }
  match o (.compositeStage k) with
  | some e => (s1, some (.compositeStage k, e))
  | none =>
    let s2 := { s1 with pres := s1.pres ++ [k] }
    match o (.overlayStage k) with
    | some e => (s2, some (.overlayStage k, e))
    | none =>
      ({ s2 with layers := s2.layers ++ [k],
                 overlays := s2.overlays ++ [⟨k, lsvmNumPath k, lsvmStageLabel k, .copy⟩] },
       none)

/-- One iteration of the batch script's main loop. -/
def lsvmIter (src : String) (o : LsvmStep → Option ErrKind) (i : ℕ) (s : LsvmAcc) :
    LsvmAcc × Option (LsvmStep × ErrKind) :=
  if i = 0 then
    match lsvmStage0 src o s with
    | (s', some f) => (s', some f)
    | (s', none) => lsvmStageK src o 0 s'
  else lsvmStageK src o i s

/-- The main loop over the listed iteration indices, stopping at the first
failure. -/
def lsvmLoopGo (src : String) (o : LsvmStep → Option ErrKind) :
    List ℕ → LsvmAcc → LsvmAcc × Option (LsvmStep × ErrKind)
  | [], s => (s, none)
  | i :: rest, s =>
    match lsvmIter src o i s with
    | (s', none) => lsvmLoopGo src o rest s'
    | (s', some f) => (s', some f)

theorem lsvmLoopGo_cons_none {src : String} {o : LsvmStep → Option ErrKind}
    {i : ℕ} {rest : List ℕ} {s s' : LsvmAcc}
    (h : lsvmIter src o i s = (s', none)) :
    lsvmLoopGo src o (i :: rest) s = lsvmLoopGo src o rest s' := by
  rw [lsvmLoopGo, h]

theorem lsvmLoopGo_cons_some {src : String} {o : LsvmStep → Option ErrKind}
    {i : ℕ} {rest : List ℕ} {s s' : LsvmAcc} {f : LsvmStep × ErrKind}
    (h : lsvmIter src o i s = (s', some f)) :
    lsvmLoopGo src o (i :: rest) s = (s', some f) := by
  rw [lsvmLoopGo, h]

/-- Outcome of a batch-script run. -/
structure LsvmResult where
  acc : LsvmAcc
  failure : Option (LsvmStep × ErrKind)
  manifest : Option (List String)
  concatInvoked : Bool
  deriving DecidableEq, Repr

/-- Whole run of `LSVM.py` for loop count `value` (as read from
`settings.txt`, possibly negative) under a failure oracle.  An uncaught
`encode` failure terminates the script before the manifest and concat;
any other outcome — normal completion or a caught FileNotFoundError —
falls through to writing the manifest for `range(value + 1)` and invoking
the concat subprocess. -/
def lsvmRun (src : String) (value : ℤ) (o : LsvmStep → Option ErrKind) : LsvmResult :=
  match lsvmLoopGo src o (List.range value.toNat) lsvmAccStart with
  | (acc, some (st, .encode)) => ⟨acc, some (st, .encode), none, false⟩
  | (acc, some (st, .fnf)) =>
    ⟨acc, some (st, .fnf), some ((List.range (value + 1).toNat).map lsvmLayerPath), true⟩
  | (acc, none) =>
    ⟨acc, none, some ((List.range (value + 1).toNat).map lsvmLayerPath), true⟩

/-- Oracle for a run where every external step succeeds. -/
def lsvmOracleNone : LsvmStep → Option ErrKind := fun _ => none

/-! ## GUI driver model

Faithfulness notes for `gui.py` (`process_video_layers`, lines 85–356):
* layer 0 is always created first (drawtext on the copied upload, audio
  re-encoded to AAC at 44100); an `ffmpeg.Error` there returns
  immediately;
* loop iteration `i` (stage `k = i + 1`): the MoviePy composite input is
  the uploaded source for `i = 0`, else `output_temp/I.mp4`; MoviePy
  writes to `output_temp/K_tmp_dyn.mp4` when dynaudnorm is enabled, else
  directly to `output_temp/K.mp4`; with dynaudnorm the normalization
  subprocess (run with `check=True`) then produces `output_temp/K.mp4`;
  the canonical pre-label artifact is always `output_temp/K.mp4`.  Any
  exception in the compositing/normalization block, and any
  `ffmpeg.Error` in the drawtext pass (audio `c:a copy`), returns
  immediately — before the concat list file is written;
* after the loop the concat list file is written (the in-memory list, in
  append order) and the concat subprocess runs with `check=True`. -/

/-- Failure-injection points of the GUI script. -/
inductive GStep
  | layerZero
  | compositeStage (k : ℕ)
  | dynStage (k : ℕ)
  | overlayStage (k : ℕ)
  | concatStep
  deriving DecidableEq, Repr

/-- Stage index a failing GUI step belongs to (the concat step is given
index 0; it is excluded where stages are discussed). -/
def gStepStage : GStep → ℕ
  | .layerZero => 0
  | .compositeStage k => k
  | .dynStage k => k
  | .overlayStage k => k
  | .concatStep => 0

/-- Provenance of a stage's canonical pre-label artifact. -/
inductive Prov
  | raw
  | normalized
  deriving DecidableEq, Repr

/-- Artifact/event accumulator of a GUI run. -/
structure GuiAcc where
  layers : List ℕ
  pres : List (ℕ × Prov)
  composites : List CompositeEvent
  overlays : List OverlayEvent
  concatList : List String
  deriving DecidableEq, Repr

def guiAccStart : GuiAcc := ⟨[], [], [], [], []⟩

/-- Stage `i + 1` of the GUI loop: MoviePy 2x2 composite (optionally
routed through dynaudnorm), then the drawtext pass, appending the layer to
the concat list. -/
def guiStageK (base : String) (useDyn : Bool) (o : GStep → Bool) (i : ℕ) (s : GuiAcc) :
    GuiAcc × Option GStep :=
  let k := i + 1
  let inp := if i = 0 then base else guiNumPath i
  let s1 := { s with composites := s.composites ++
      [⟨k, inp, if useDyn then guiTmpDynPath k else guiNumPath k⟩] }
  if o (.compositeStage k) then (s1, some (.compositeStage k))
  else if useDyn ∧ o (.dynStage k) then (s1, some (.dynStage k))
  else
    let s2 := { s1 with pres := s1.pres ++ [(k, if useDyn then .normalized else .raw)] }
    if o (.overlayStage k) then (s2, some (.overlayStage k))
    else
      ({ s2 with layers := s2.layers ++ [k],
                 overlays := s2.overlays ++ [⟨k, guiNumPath k, guiStageLabel k, .copy⟩],
                 concatList := s2.concatList ++ [guiLayerPath k] }, none)

/-- The GUI compositing loop over the listed iteration indices, returning
at the first failure. -/
def guiLoopGo (base : String) (useDyn : Bool) (o : GStep → Bool) :
    List ℕ → GuiAcc → GuiAcc × Option GStep
  | [], s => (s, none)
  | i :: rest, s =>
    match guiStageK base useDyn o i s with
    | (s', none) => guiLoopGo base useDyn o rest s'
    | (s', some f) => (s', some f)

/-- Outcome of a GUI run. -/
structure GuiResult where
  acc : GuiAcc
  failedAt : Option GStep
  manifest : Option (List String)
  concatInvoked : Bool
  finalWritten : Bool
  deriving DecidableEq, Repr

/-- Post-loop tail of `process_video_layers`: on a loop failure return with
no concat; otherwise guard against an empty concat list, then write the
concat list file and run the concat subprocess (`check=True`). -/
def guiRunAfter (o : GStep → Bool) : GuiAcc × Option GStep → GuiResult
  | (acc, some st) => ⟨acc, some st, none, false, false⟩
  | (acc, none) =>
    if acc.concatList.isEmpty then ⟨acc, none, none, false, false⟩
    else if o .concatStep then ⟨acc, some .concatStep, some acc.concatList, true, false⟩
    else ⟨acc, none, some acc.concatList, true, true⟩

/-- Initial accumulator after a successful layer-0 creation. -/
def guiAccZero (base initText : String) : GuiAcc :=
  ⟨[0], [], [], [⟨0, base, initText, .reencodeAAC⟩], [guiLayerPath 0]⟩

/-- Whole run of `gui.py`'s `process_video_layers` with `n` compositing
loops under a failure oracle.  `initText` is the user-supplied initial
text drawn on layer 0. -/
def guiRun (base initText : String) (n : ℕ) (useDyn : Bool) (o : GStep → Bool) : GuiResult :=
  if o .layerZero then ⟨guiAccStart, some .layerZero, none, false, false⟩
  else guiRunAfter o (guiLoopGo base useDyn o (List.range n) (guiAccZero base initText))

/-- Oracle for a GUI run where every external step succeeds. -/
def guiOracleNone : GStep → Bool := fun _ => false

/-! ## Grid compositor configuration

Both variants build the 2x2 composite identically (`LSVM.py` lines
103–122, `gui.py` lines 162–191): four independent clips of the same
source; `volumex(volume)` applied to each copy's audio; video starts
`0, 0.03, 0.06, 0.09` via `set_start`; audio mixed by
`CompositeAudioClip` from the four per-copy audio tracks, each given the
same `set_start` offset as its video.  Times and gains are exact decimal
literals, embedded as rationals. -/

/-- Audio-clip expression tree: the operations applied to a copy's audio
track before mixing. -/
inductive AudioExpr
  | source (copy : ℕ)
  | volumex (factor : ℚ) (a : AudioExpr)
  | setStart (t : ℚ) (a : AudioExpr)
  deriving DecidableEq, Repr

/-- Start offset of an audio expression (0 when no `set_start` was
applied). -/
def audioStartOf : AudioExpr → ℚ
  | .setStart t _ => t
  | _ => 0

/-- Accumulated gain of an audio expression. -/
def audioGainOf : AudioExpr → ℚ
  | .source _ => 1
  | .volumex f a => f * audioGainOf a
  | .setStart _ a => audioGainOf a

/-- One of the four copies laid into the 2x2 grid: its video start offset
and the audio expression handed to the mixer. -/
structure GridCopy where
  videoStart : ℚ
  audio : AudioExpr
  deriving DecidableEq, Repr

/-- Echo offset step between consecutive copies: 0.03 seconds. -/
def echoDelta : ℚ := 3 / 100

/-- The four copies as both scripts construct them: copy 1 unshifted
(`clip1`, `audio1 = clip1.audio`), copies 2–4 with `set_start` 0.03,
0.06, 0.09 on the clip and the same offset on the audio track; every
copy's audio passes through `volumex` with the same multiplier first. -/
def gridCopies (vol : ℚ) : List GridCopy :=
  [ ⟨0, .volumex vol (.source 1)⟩,
    ⟨3 / 100, .setStart (3 / 100) (.volumex vol (.source 2))⟩,
    ⟨6 / 100, .setStart (6 / 100) (.volumex vol (.source 3))⟩,
    ⟨9 / 100, .setStart (9 / 100) (.volumex vol (.source 4))⟩ ]

/-- Audio list handed to `CompositeAudioClip`. -/
def finalAudioMix (vol : ℚ) : List AudioExpr := (gridCopies vol).map GridCopy.audio

/-! ## GUI per-stage resource model (claim C10)

`gui.py` pre-declares the clip variables (lines 156–159), assigns them in
a fixed order inside the `try` block, and closes, in a `finally` block
(lines 249–262), every variable of its `clips_to_close` list that was
assigned.  Decode handles (the file readers opened by the four
`VideoFileClip` constructor calls) are owned by the `clip1..clip4`
variables; the derived clips (grid composite, per-copy audio tracks,
audio-attached composite, and the `CompositeAudioClip` variable
`final_audio`, which is *not* in `clips_to_close`) own no reader of their
own. -/

/-- Variables of the compositing stage that can hold MoviePy clip
objects. -/
inductive ClipSlot
  | clip1
  | clip2
  | clip3
  | clip4
  | finalVisuals
  | finalWithAudio
  | audio1
  | audio2
  | audio3
  | audio4
  | finalAudioVar
  deriving DecidableEq, Repr

/-- Decode handles a slot's `close()` releases (the reader opened by the
corresponding `VideoFileClip` call; derived clips own none). -/
def slotReaders : ClipSlot → List (Fin 4)
  | .clip1 => [0]
  | .clip2 => [1]
  | .clip3 => [2]
  | .clip4 => [3]
  | _ => []

/-- The `clips_to_close` list of `gui.py` lines 252–256. -/
def closeList : List ClipSlot :=
  [.clip1, .clip2, .clip3, .clip4, .finalVisuals, .finalWithAudio,
   .audio1, .audio2, .audio3, .audio4]

/-- Exit paths of one compositing stage: an exception at each point of the
`try` block (including the dynaudnorm subprocess), or normal
completion. -/
inductive StageExit
  | failOpen (j : Fin 4)
  | failAudioVol
  | failSetStart
  | failGrid
  | failAudioMix
  | failAttach
  | failWrite
  | failDyn
  | finished
  deriving DecidableEq, Repr

/-- Decode handles opened before the stage exits: all four, except when
the `j`-th `VideoFileClip` constructor itself raises. -/
def openedReaders : StageExit → List (Fin 4)
  | .failOpen j => (List.finRange 4).filter (fun r => r < j)
  | _ => List.finRange 4

/-- Slots assigned (non-`None`) when the stage exits, following the
assignment order of the `try` block. -/
def assignedSlots : StageExit → List ClipSlot
  | .failOpen j => [ClipSlot.clip1, .clip2, .clip3, .clip4].take j.val
  | .failAudioVol => [.clip1, .clip2, .clip3, .clip4]
  | .failSetStart => [.clip1, .clip2, .clip3, .clip4]
  | .failGrid => [.clip1, .clip2, .clip3, .clip4]
  | .failAudioMix => [.clip1, .clip2, .clip3, .clip4, .finalVisuals,
      .audio1, .audio2, .audio3, .audio4]
  | .failAttach => [.clip1, .clip2, .clip3, .clip4, .finalVisuals,
      .audio1, .audio2, .audio3, .audio4, .finalAudioVar]
  | _ => [.clip1, .clip2, .clip3, .clip4, .finalVisuals,
      .audio1, .audio2, .audio3, .audio4, .finalAudioVar, .finalWithAudio]

/-- Decode handles released by the `finally` block: those owned by an
assigned slot that appears in `clips_to_close`. -/
def closedReaders (ex : StageExit) : List (Fin 4) :=
  (((assignedSlots ex).filter (fun s => closeList.contains s)).map slotReaders).flatten

/-! ## Invariants of the batch-script run -/

/-- Well-formedness of a compositing record: stages start at 1; stage 1
reads the original source; stage `k ≥ 2` reads the numbered pre-label
output of stage `k - 1`; the composite is written to the stage's numbered
path. -/
def LsvmCompOk (src : String) (e : CompositeEvent) : Prop :=
  1 ≤ e.stage ∧ (e.stage = 1 → e.input = src) ∧
    (2 ≤ e.stage → e.input = lsvmNumPath (e.stage - 1)) ∧
    e.output = lsvmNumPath e.stage

/-- Well-formedness of an overlay record: stage 0 reads the original
source, draws the literal `1` and re-encodes audio; stage `k ≥ 1` reads
the numbered composite of stage `k`, draws that stage's label and
stream-copies audio. -/
def LsvmOvOk (src : String) (e : OverlayEvent) : Prop :=
  (e.stage = 0 → e.input = src ∧ e.text = "1" ∧ e.audio = .reencodeAAC) ∧
    (1 ≤ e.stage → e.input = lsvmNumPath e.stage ∧
      e.text = lsvmStageLabel e.stage ∧ e.audio = .copy)

def LsvmAccOk (src : String) (s : LsvmAcc) : Prop :=
  (∀ e ∈ s.composites, LsvmCompOk src e) ∧ ∀ e ∈ s.overlays, LsvmOvOk src e

theorem lsvmOvOk_stage0 (src : String) :
    LsvmOvOk src ⟨0, src, "1", .reencodeAAC⟩ := by
  constructor
  · intro _
    exact ⟨rfl, rfl, rfl⟩
  · intro hc
    have hcn : 1 ≤ 0 := hc
    exact absurd hcn (by omega)

theorem lsvmOvOk_stageK (src : String) (k : ℕ) (hk : 1 ≤ k) :
    LsvmOvOk src ⟨k, lsvmNumPath k, lsvmStageLabel k, .copy⟩ := by
  constructor
  · intro hc
    have hcn : k = 0 := hc
    exact absurd hcn (by omega)
  · intro _
    exact ⟨rfl, rfl, rfl⟩

theorem lsvmCompOk_stage (src : String) (i : ℕ) :
    LsvmCompOk src ⟨i + 1, if i = 0 then src else lsvmNumPath i, lsvmNumPath (i + 1)⟩ := by
  refine ⟨Nat.le_add_left 1 i, ?_, ?_, rfl⟩
  · intro h1
    have h1n : i + 1 = 1 := h1
    show (if i = 0 then src else lsvmNumPath i) = src
    have hi : i = 0 := by omega
    rw [if_pos hi]
  · intro h2
    have h2n : 2 ≤ i + 1 := h2
    show (if i = 0 then src else lsvmNumPath i) = lsvmNumPath (i + 1 - 1)
    have hi : ¬ i = 0 := by omega
    rw [if_neg hi]
    congr 1

theorem lsvmStage0_ok {src : String} {o : LsvmStep → Option ErrKind} {s : LsvmAcc}
    (h : LsvmAccOk src s) : LsvmAccOk src (lsvmStage0 src o s).1 := by
  rw [lsvmStage0]
  cases o .overlayZero with
  | some e => exact h
  | none =>
    refine ⟨h.1, ?_⟩
    intro ev hev
    simp only [List.mem_append, List.mem_singleton] at hev
    rcases hev with hev | rfl
    · exact h.2 ev hev
    · exact lsvmOvOk_stage0 src

theorem lsvmStageK_ok {src : String} {o : LsvmStep → Option ErrKind} {i : ℕ} {s : LsvmAcc}
    (h : LsvmAccOk src s) : LsvmAccOk src (lsvmStageK src o i s).1 := by
  rw [lsvmStageK]
  simp only []
  have hcomp : ∀ e ∈ s.composites ++
      [⟨i + 1, if i = 0 then src else lsvmNumPath i, lsvmNumPath (i + 1)⟩],
      LsvmCompOk src e := by
    intro ev hev
    simp only [List.mem_append, List.mem_singleton] at hev
    rcases hev with hev | rfl
    · exact h.1 ev hev
    · exact lsvmCompOk_stage src i
  cases o (.compositeStage (i + 1)) with
  | some e => exact ⟨hcomp, h.2⟩
  | none =>
    cases o (.overlayStage (i + 1)) with
    | some e => exact ⟨hcomp, h.2⟩
    | none =>
      refine ⟨hcomp, ?_⟩
      intro ev hev
      simp only [List.mem_append, List.mem_singleton] at hev
      rcases hev with hev | rfl
      · exact h.2 ev hev
      · exact lsvmOvOk_stageK src (i + 1) (by omega)

theorem lsvmIter_ok {src : String} {o : LsvmStep → Option ErrKind} {i : ℕ} {s : LsvmAcc}
    (h : LsvmAccOk src s) : LsvmAccOk src (lsvmIter src o i s).1 := by
  rw [lsvmIter]
  by_cases hi : i = 0
  · rw [if_pos hi]
    have h0 := lsvmStage0_ok (o := o) h
    cases h0eq : lsvmStage0 src o s with
    | mk s' r =>
      rw [h0eq] at h0
      cases r with
      | some f => exact h0
      | none => exact lsvmStageK_ok h0
  · rw [if_neg hi]
    exact lsvmStageK_ok h

theorem lsvmLoopGo_ok {src : String} {o : LsvmStep → Option ErrKind} :
    ∀ {l : List ℕ} {s : LsvmAcc}, LsvmAccOk src s →
      LsvmAccOk src (lsvmLoopGo src o l s).1 := by
  intro l
  induction l with
  | nil => intro s h; exact h
  | cons i rest ih =>
    intro s h
    rw [lsvmLoopGo]
    have hit := lsvmIter_ok (o := o) (i := i) h
    cases hiteq : lsvmIter src o i s with
    | mk s' r =>
      rw [hiteq] at hit
      cases r with
      | none => exact ih hit
      | some f => exact hit

theorem lsvmAccStart_ok (src : String) : LsvmAccOk src lsvmAccStart := by
  constructor
  · intro e he
    simp [lsvmAccStart] at he
  · intro e he
    simp [lsvmAccStart] at he

theorem lsvmRun_acc_eq (src : String) (value : ℤ) (o : LsvmStep → Option ErrKind) :
    (lsvmRun src value o).acc =
      (lsvmLoopGo src o (List.range value.toNat) lsvmAccStart).1 := by
  rw [lsvmRun]
  cases heq : lsvmLoopGo src o (List.range value.toNat) lsvmAccStart with
  | mk acc r =>
    cases r with
    | none => rfl
    | some fe =>
      cases fe with
      | mk f e => cases e <;> rfl

theorem lsvmRun_failure_eq (src : String) (value : ℤ) (o : LsvmStep → Option ErrKind) :
    (lsvmRun src value o).failure =
      (lsvmLoopGo src o (List.range value.toNat) lsvmAccStart).2 := by
  rw [lsvmRun]
  cases heq : lsvmLoopGo src o (List.range value.toNat) lsvmAccStart with
  | mk acc r =>
    cases r with
    | none => rfl
    | some fe =>
      cases fe with
      | mk f e => cases e <;> rfl

/-- Every event recorded by any batch-script run is well-formed: the
input-selection, label and audio facts of claims C3, C5 and C6. -/
theorem lsvmRun_ok (src : String) (value : ℤ) (o : LsvmStep → Option ErrKind) :
    LsvmAccOk src (lsvmRun src value o).acc := by
  rw [lsvmRun_acc_eq]
  exact lsvmLoopGo_ok (lsvmAccStart_ok src)

/-- Stage-index bound on an accumulator: no recorded artifact or event
belongs to a stage above `m`. -/
def LsvmAccLE (s : LsvmAcc) (m : ℕ) : Prop :=
  (∀ j ∈ s.layers, j ≤ m) ∧ (∀ j ∈ s.pres, j ≤ m) ∧
    (∀ e ∈ s.composites, e.stage ≤ m) ∧ ∀ e ∈ s.overlays, e.stage ≤ m

theorem lsvmAccLE_mono {s : LsvmAcc} {m m' : ℕ} (h : LsvmAccLE s m) (hm : m ≤ m') :
    LsvmAccLE s m' :=
  ⟨fun j hj => le_trans (h.1 j hj) hm, fun j hj => le_trans (h.2.1 j hj) hm,
   fun e he => le_trans (h.2.2.1 e he) hm, fun e he => le_trans (h.2.2.2 e he) hm⟩

theorem lsvmStage0_le (src : String) (o : LsvmStep → Option ErrKind) {s : LsvmAcc}
    (h : LsvmAccLE s 0) : LsvmAccLE (lsvmStage0 src o s).1 0 := by
  rw [lsvmStage0]
  cases o .overlayZero with
  | some e => exact h
  | none =>
    refine ⟨?_, h.2.1, h.2.2.1, ?_⟩
    · intro j hj
      simp only [List.mem_append, List.mem_singleton] at hj
      rcases hj with hj | rfl
      · exact h.1 j hj
      · exact le_refl 0
    · intro e he
      simp only [List.mem_append, List.mem_singleton] at he
      rcases he with he | rfl
      · exact h.2.2.2 e he
      · exact le_refl 0

theorem lsvmStageK_le {src : String} {o : LsvmStep → Option ErrKind} {i : ℕ} {s : LsvmAcc}
    (h : LsvmAccLE s i) :
    ((lsvmStageK src o i s).2 = none → LsvmAccLE (lsvmStageK src o i s).1 (i + 1)) ∧
      ∀ f e, (lsvmStageK src o i s).2 = some (f, e) →
        LsvmAccLE (lsvmStageK src o i s).1 (lsvmStepStage f) := by
  rw [lsvmStageK]
  simp only []
  have hs1 : LsvmAccLE
      ({ s with
        composites := s.composites ++ [⟨i + 1, if i = 0 then src else lsvmNumPath i, lsvmNumPath (i + 1)⟩] }) (i + 1) := by
    refine ⟨fun j hj => le_trans (h.1 j hj) (by omega),
      fun j hj => le_trans (h.2.1 j hj) (by omega), ?_,
      fun e he => le_trans (h.2.2.2 e he) (by omega)⟩
    intro e he
    simp only [List.mem_append, List.mem_singleton] at he
    rcases he with he | rfl
    · exact le_trans (h.2.2.1 e he) (by omega)
    · exact le_refl (i + 1)
  cases o (.compositeStage (i + 1)) with
  | some e =>
    refine ⟨fun hc => Option.noConfusion hc, ?_⟩
    intro f e' hf
    cases hf
    exact hs1
  | none =>
    have hs2 : LsvmAccLE
        ({ s with
          composites := s.composites ++ [⟨i + 1, if i = 0 then src else lsvmNumPath i, lsvmNumPath (i + 1)⟩]
          pres := s.pres ++ [i + 1] }) (i + 1) := by
      refine ⟨hs1.1, ?_, hs1.2.2.1, hs1.2.2.2⟩
      intro j hj
      simp only [List.mem_append, List.mem_singleton] at hj
      rcases hj with hj | rfl
      · exact le_trans (h.2.1 j hj) (by omega)
      · exact le_refl (i + 1)
    cases o (.overlayStage (i + 1)) with
    | some e =>
      refine ⟨fun hc => Option.noConfusion hc, ?_⟩
      intro f e' hf
      cases hf
      exact hs2
    | none =>
      refine ⟨fun _ => ⟨?_, hs2.2.1, hs2.2.2.1, ?_⟩, ?_⟩
      · intro j hj
        simp only [List.mem_append, List.mem_singleton] at hj
        rcases hj with hj | rfl
        · exact hs2.1 j hj
        · exact le_refl (i + 1)
      · intro e he
        simp only [List.mem_append, List.mem_singleton] at he
        rcases he with he | rfl
        · exact hs2.2.2.2 e he
        · exact le_refl (i + 1)
      · intro f e' hf
        cases hf

theorem lsvmIter_le (src : String) (o : LsvmStep → Option ErrKind) {i : ℕ} {s : LsvmAcc}
    (h : LsvmAccLE s i) :
    ((lsvmIter src o i s).2 = none → LsvmAccLE (lsvmIter src o i s).1 (i + 1)) ∧
      ∀ f e, (lsvmIter src o i s).2 = some (f, e) →
        LsvmAccLE (lsvmIter src o i s).1 (lsvmStepStage f) := by
  rw [lsvmIter]
  by_cases hi : i = 0
  · subst hi
    rw [if_pos rfl]
    have h0 := lsvmStage0_le src o h
    cases h0eq : lsvmStage0 src o s with
    | mk s0 r0 =>
      rw [h0eq] at h0
      cases r0 with
      | some f =>
        refine ⟨fun hc => Option.noConfusion hc, ?_⟩
        intro f' e' hf
        cases hf
        rw [lsvmStage0] at h0eq
        cases hov : o .overlayZero with
        | some e0 =>
          rw [hov] at h0eq
          cases h0eq
          exact lsvmAccLE_mono h0 (by omega)
        | none =>
          rw [hov] at h0eq
          cases h0eq
      | none => exact lsvmStageK_le h0
  · rw [if_neg hi]
    exact lsvmStageK_le h

theorem lsvmLoopGo_le {src : String} {o : LsvmStep → Option ErrKind} :
    ∀ {r : ℕ} {i : ℕ} {s : LsvmAcc}, LsvmAccLE s i →
      ((lsvmLoopGo src o (List.range' i r) s).2 = none →
          LsvmAccLE (lsvmLoopGo src o (List.range' i r) s).1 (i + r)) ∧
        ∀ f e, (lsvmLoopGo src o (List.range' i r) s).2 = some (f, e) →
          LsvmAccLE (lsvmLoopGo src o (List.range' i r) s).1 (lsvmStepStage f) := by
  intro r
  induction r with
  | zero =>
    intro i s h
    refine ⟨fun _ => lsvmAccLE_mono h (by omega), ?_⟩
    intro f e hf
    simp only [List.range', lsvmLoopGo] at hf
    cases hf
  | succ r ih =>
    intro i s h
    have hr : List.range' i (r + 1) = i :: List.range' (i + 1) r := List.range'_succ i r 1
    rw [hr, lsvmLoopGo]
    have hit := lsvmIter_le src o h
    cases hiteq : lsvmIter src o i s with
    | mk si ri =>
      rw [hiteq] at hit
      cases ri with
      | none =>
        have hle := hit.1 rfl
        have hres := ih hle
        refine ⟨fun hn => lsvmAccLE_mono (hres.1 hn) (by omega), hres.2⟩
      | some f =>
        refine ⟨fun hc => Option.noConfusion hc, ?_⟩
        intro f' e' hf
        cases hf
        exact hit.2 f' e' rfl

/-- Whenever a batch-script run fails at stage `k`, no recorded artifact
or event belongs to a stage above `k`. -/
theorem lsvmRun_failure_le {src : String} {value : ℤ} {o : LsvmStep → Option ErrKind}
    {f : LsvmStep} {e : ErrKind} (h : (lsvmRun src value o).failure = some (f, e)) :
    LsvmAccLE (lsvmRun src value o).acc (lsvmStepStage f) := by
  rw [lsvmRun_failure_eq] at h
  rw [lsvmRun_acc_eq]
  have hstart : LsvmAccLE lsvmAccStart 0 := by
    refine ⟨?_, ?_, ?_, ?_⟩ <;> intro x hx <;> simp [lsvmAccStart] at hx
  have hrange : List.range value.toNat = List.range' 0 value.toNat :=
    List.range_eq_range' value.toNat
  rw [hrange] at h ⊢
  exact (lsvmLoopGo_le hstart).2 f e h

/-! ## Closed form of a fully successful batch-script run -/

theorem lsvmStageK_none {src : String} (i : ℕ) (s : LsvmAcc) :
    lsvmStageK src lsvmOracleNone i s =
      ({ s with
        layers := s.layers ++ [i + 1]
        pres := s.pres ++ [i + 1]
        composites := s.composites ++ [⟨i + 1, if i = 0 then src else lsvmNumPath i, lsvmNumPath (i + 1)⟩]
        overlays := s.overlays ++ [⟨i + 1, lsvmNumPath (i + 1), lsvmStageLabel (i + 1), .copy⟩] }, none) := by
  rw [lsvmStageK]
  rfl

theorem lsvmLoopGo_none {src : String} :
    ∀ (r i : ℕ) (s : LsvmAcc), 1 ≤ i →
      lsvmLoopGo src lsvmOracleNone (List.range' i r) s =
        ({ s with
          layers := s.layers ++ List.range' (i + 1) r
          pres := s.pres ++ List.range' (i + 1) r
          composites := s.composites ++ (List.range' (i + 1) r).map (fun k => ⟨k, lsvmNumPath (k - 1), lsvmNumPath k⟩)
          overlays := s.overlays ++ (List.range' (i + 1) r).map (fun k => ⟨k, lsvmNumPath k, lsvmStageLabel k, .copy⟩) }, none) := by
  intro r
  induction r with
  | zero =>
    intro i s _
    simp [lsvmLoopGo, List.range']
  | succ r ih =>
    intro i s hi
    have hne : ¬ i = 0 := by omega
    rw [List.range'_succ]
    have hiter : lsvmIter src lsvmOracleNone i s =
        ({ s with
          layers := s.layers ++ [i + 1]
          pres := s.pres ++ [i + 1]
          composites := s.composites ++ [⟨i + 1, lsvmNumPath i, lsvmNumPath (i + 1)⟩]
          overlays := s.overlays ++ [⟨i + 1, lsvmNumPath (i + 1), lsvmStageLabel (i + 1), .copy⟩] },
         none) := by
      rw [lsvmIter, if_neg hne, lsvmStageK_none, if_neg hne]
    rw [lsvmLoopGo_cons_none hiter, ih (i + 1) _ (by omega), List.range'_succ (i + 1) r 1]
    simp [List.append_assoc]

theorem lsvmRun_none (src : String) (M : ℕ) :
    lsvmRun src ((M : ℤ) + 1) lsvmOracleNone =
      ⟨⟨List.range (M + 2), List.range' 1 (M + 1),
        ⟨1, src, lsvmNumPath 1⟩ ::
          (List.range' 2 M).map (fun k => ⟨k, lsvmNumPath (k - 1), lsvmNumPath k⟩),
        ⟨0, src, "1", .reencodeAAC⟩ ::
          (List.range' 1 (M + 1)).map (fun k => ⟨k, lsvmNumPath k, lsvmStageLabel k, .copy⟩)⟩,
       none, some ((List.range (M + 2)).map lsvmLayerPath), true⟩ := by
  have htn : ((M : ℤ) + 1).toNat = M + 1 := by omega
  have htn2 : ((M : ℤ) + 1 + 1).toNat = M + 2 := by omega
  have hr1 : List.range (M + 1) = 0 :: List.range' 1 M := by
    rw [List.range_eq_range' (M + 1), List.range'_succ 0 M 1]
  have hiter0 : lsvmIter src lsvmOracleNone 0 lsvmAccStart =
      (⟨[0, 1], [1], [⟨1, src, lsvmNumPath 1⟩],
        [⟨0, src, "1", .reencodeAAC⟩, ⟨1, lsvmNumPath 1, lsvmStageLabel 1, .copy⟩]⟩, none) := rfl
  have hr2 : List.range (M + 2) = 0 :: 1 :: List.range' 2 M := by
    rw [List.range_eq_range' (M + 2), List.range'_succ 0 (M + 1) 1,
      List.range'_succ 1 M 1]
  have hr3 : List.range' 1 (M + 1) = 1 :: List.range' 2 M := List.range'_succ 1 M 1
  have hloop : lsvmLoopGo src lsvmOracleNone (List.range (M + 1)) lsvmAccStart =
      (⟨List.range (M + 2), List.range' 1 (M + 1),
        ⟨1, src, lsvmNumPath 1⟩ ::
          (List.range' 2 M).map (fun k => ⟨k, lsvmNumPath (k - 1), lsvmNumPath k⟩),
        ⟨0, src, "1", .reencodeAAC⟩ ::
          (List.range' 1 (M + 1)).map
            (fun k => ⟨k, lsvmNumPath k, lsvmStageLabel k, .copy⟩)⟩, none) := by
    rw [hr1, lsvmLoopGo_cons_none hiter0, lsvmLoopGo_none M 1 _ (by omega)]
    rw [hr2, hr3]
    simp
  rw [lsvmRun, htn, htn2, hloop]

/-! ## Invariants of the GUI run -/

/-- Well-formedness of a GUI compositing record: stage 1 reads the copied
upload; stage `k ≥ 2` reads the canonical pre-label output of stage
`k - 1`; MoviePy writes to the dynaudnorm temporary when normalization is
enabled, else directly to the canonical numbered path. -/
def GuiCompOk (base : String) (useDyn : Bool) (e : CompositeEvent) : Prop :=
  1 ≤ e.stage ∧ (e.stage = 1 → e.input = base) ∧
    (2 ≤ e.stage → e.input = guiNumPath (e.stage - 1)) ∧
    e.output = (if useDyn then guiTmpDynPath e.stage else guiNumPath e.stage)

/-- Well-formedness of a GUI overlay record: layer 0 draws the
user-supplied initial text on the copied upload with re-encoded audio;
stage `k ≥ 1` draws that stage's label on the canonical numbered
composite with stream-copied audio. -/
def GuiOvOk (base initText : String) (e : OverlayEvent) : Prop :=
  (e.stage = 0 → e.input = base ∧ e.text = initText ∧ e.audio = .reencodeAAC) ∧
    (1 ≤ e.stage → e.input = guiNumPath e.stage ∧
      e.text = guiStageLabel e.stage ∧ e.audio = .copy)

/-- Provenance of every canonical pre-label artifact follows the
normalization flag. -/
def GuiPreOk (useDyn : Bool) (p : ℕ × Prov) : Prop :=
  1 ≤ p.1 ∧ p.2 = (if useDyn then Prov.normalized else Prov.raw)

def GuiAccOk (base initText : String) (useDyn : Bool) (s : GuiAcc) : Prop :=
  (∀ e ∈ s.composites, GuiCompOk base useDyn e) ∧
    (∀ e ∈ s.overlays, GuiOvOk base initText e) ∧
    ∀ p ∈ s.pres, GuiPreOk useDyn p

theorem guiStageK_ok {base initText : String} {useDyn : Bool} {o : GStep → Bool}
    {i : ℕ} {s : GuiAcc} (h : GuiAccOk base initText useDyn s) :
    GuiAccOk base initText useDyn (guiStageK base useDyn o i s).1 := by
  rw [guiStageK]
  simp only []
  have hcomp : ∀ e ∈ s.composites ++
      [⟨i + 1, if i = 0 then base else guiNumPath i,
        if useDyn then guiTmpDynPath (i + 1) else guiNumPath (i + 1)⟩],
      GuiCompOk base useDyn e := by
    intro ev hev
    simp only [List.mem_append, List.mem_singleton] at hev
    rcases hev with hev | rfl
    · exact h.1 ev hev
    · refine ⟨Nat.le_add_left 1 i, ?_, ?_, rfl⟩
      · intro h1
        have h1n : i + 1 = 1 := h1
        show (if i = 0 then base else guiNumPath i) = base
        rw [if_pos (by omega)]
      · intro h2
        have h2n : 2 ≤ i + 1 := h2
        show (if i = 0 then base else guiNumPath i) = guiNumPath (i + 1 - 1)
        rw [if_neg (by omega)]
        congr 1
  by_cases hc1 : o (.compositeStage (i + 1))
  · rw [if_pos hc1]
    exact ⟨hcomp, h.2.1, h.2.2⟩
  · rw [if_neg hc1]
    have hpre : ∀ p ∈ s.pres ++ [(i + 1, if useDyn then Prov.normalized else Prov.raw)],
        GuiPreOk useDyn p := by
      intro p hp
      simp only [List.mem_append, List.mem_singleton] at hp
      rcases hp with hp | rfl
      · exact h.2.2 p hp
      · exact ⟨Nat.le_add_left 1 i, rfl⟩
    by_cases hc2 : useDyn ∧ o (.dynStage (i + 1))
    · rw [if_pos hc2]
      exact ⟨hcomp, h.2.1, h.2.2⟩
    · rw [if_neg hc2]
      by_cases hc3 : o (.overlayStage (i + 1))
      · rw [if_pos hc3]
        exact ⟨hcomp, h.2.1, hpre⟩
      · rw [if_neg hc3]
        refine ⟨hcomp, ?_, hpre⟩
        intro ev hev
        simp only [List.mem_append, List.mem_singleton] at hev
        rcases hev with hev | rfl
        · exact h.2.1 ev hev
        · constructor
          · intro hc
            have hcn : i + 1 = 0 := hc
            omega
          · intro _
            exact ⟨rfl, rfl, rfl⟩

theorem guiLoopGo_cons_none {base : String} {useDyn : Bool} {o : GStep → Bool}
    {i : ℕ} {rest : List ℕ} {s s' : GuiAcc}
    (h : guiStageK base useDyn o i s = (s', none)) :
    guiLoopGo base useDyn o (i :: rest) s = guiLoopGo base useDyn o rest s' := by
  rw [guiLoopGo, h]

theorem guiLoopGo_cons_some {base : String} {useDyn : Bool} {o : GStep → Bool}
    {i : ℕ} {rest : List ℕ} {s s' : GuiAcc} {f : GStep}
    (h : guiStageK base useDyn o i s = (s', some f)) :
    guiLoopGo base useDyn o (i :: rest) s = (s', some f) := by
  rw [guiLoopGo, h]

theorem guiLoopGo_ok {base initText : String} {useDyn : Bool} {o : GStep → Bool} :
    ∀ {l : List ℕ} {s : GuiAcc}, GuiAccOk base initText useDyn s →
      GuiAccOk base initText useDyn (guiLoopGo base useDyn o l s).1 := by
  intro l
  induction l with
  | nil => intro s h; exact h
  | cons i rest ih =>
    intro s h
    have hit := guiStageK_ok (o := o) (i := i) h
    cases hiteq : guiStageK base useDyn o i s with
    | mk s' r =>
      rw [hiteq] at hit
      cases r with
      | none => rw [guiLoopGo_cons_none hiteq]; exact ih hit
      | some f => rw [guiLoopGo_cons_some hiteq]; exact hit

/-- The event records of every GUI run are well-formed. -/
theorem guiRun_ok (base initText : String) (n : ℕ) (useDyn : Bool) (o : GStep → Bool) :
    GuiAccOk base initText useDyn (guiRun base initText n useDyn o).acc := by
  rw [guiRun]
  by_cases h0 : o .layerZero
  · rw [if_pos h0]
    refine ⟨?_, ?_, ?_⟩ <;> intro x hx <;> simp [guiAccStart] at hx
  · rw [if_neg h0]
    have hs0 : GuiAccOk base initText useDyn (guiAccZero base initText) := by
      refine ⟨?_, ?_, ?_⟩
      · intro x hx; simp [guiAccZero] at hx
      · intro x hx
        simp [guiAccZero] at hx
        subst hx
        constructor
        · intro _; exact ⟨rfl, rfl, rfl⟩
        · intro hc
          have hcn : (1 : ℕ) ≤ 0 := hc
          omega
      · intro x hx; simp [guiAccZero] at hx
    have hloop := guiLoopGo_ok (o := o) (l := List.range n) hs0
    cases heq : guiLoopGo base useDyn o (List.range n) (guiAccZero base initText) with
    | mk acc r =>
      rw [heq] at hloop
      cases r with
      | some st => exact hloop
      | none =>
        rw [guiRunAfter]
        by_cases hemp : acc.concatList.isEmpty
        · rw [if_pos hemp]
          exact hloop
        · rw [if_neg hemp]
          by_cases hcs : o .concatStep
          · rw [if_pos hcs]
            exact hloop
          · rw [if_neg hcs]
            exact hloop

/-- Stage-index bound on a GUI accumulator. -/
def GuiAccLE (s : GuiAcc) (m : ℕ) : Prop :=
  (∀ j ∈ s.layers, j ≤ m) ∧ (∀ p ∈ s.pres, p.1 ≤ m) ∧
    (∀ e ∈ s.composites, e.stage ≤ m) ∧ ∀ e ∈ s.overlays, e.stage ≤ m

theorem guiAccLE_mono {s : GuiAcc} {m m' : ℕ} (h : GuiAccLE s m) (hm : m ≤ m') :
    GuiAccLE s m' :=
  ⟨fun j hj => le_trans (h.1 j hj) hm, fun p hp => le_trans (h.2.1 p hp) hm,
   fun e he => le_trans (h.2.2.1 e he) hm, fun e he => le_trans (h.2.2.2 e he) hm⟩

theorem guiStageK_le (base : String) (useDyn : Bool) (o : GStep → Bool) {i : ℕ}
    {s : GuiAcc} (h : GuiAccLE s i) :
    ((guiStageK base useDyn o i s).2 = none →
        GuiAccLE (guiStageK base useDyn o i s).1 (i + 1)) ∧
      ∀ f, (guiStageK base useDyn o i s).2 = some f →
        GuiAccLE (guiStageK base useDyn o i s).1 (gStepStage f) := by
  rw [guiStageK]
  simp only []
  have hs1 : GuiAccLE
      ({ s with
        composites := s.composites ++ [⟨i + 1, if i = 0 then base else guiNumPath i, if useDyn then guiTmpDynPath (i + 1) else guiNumPath (i + 1)⟩] }) (i + 1) := by
    refine ⟨fun j hj => le_trans (h.1 j hj) (by omega),
      fun p hp => le_trans (h.2.1 p hp) (by omega), ?_,
      fun e he => le_trans (h.2.2.2 e he) (by omega)⟩
    intro e he
    simp only [List.mem_append, List.mem_singleton] at he
    rcases he with he | rfl
    · exact le_trans (h.2.2.1 e he) (by omega)
    · exact le_refl (i + 1)
  by_cases hc1 : o (.compositeStage (i + 1))
  · rw [if_pos hc1]
    refine ⟨fun hc => Option.noConfusion hc, ?_⟩
    intro f hf
    cases hf
    exact hs1
  · rw [if_neg hc1]
    by_cases hc2 : useDyn ∧ o (.dynStage (i + 1))
    · rw [if_pos hc2]
      refine ⟨fun hc => Option.noConfusion hc, ?_⟩
      intro f hf
      cases hf
      exact hs1
    · rw [if_neg hc2]
      have hs2 : GuiAccLE
          ({ s with
            composites := s.composites ++ [⟨i + 1, if i = 0 then base else guiNumPath i, if useDyn then guiTmpDynPath (i + 1) else guiNumPath (i + 1)⟩]
            pres := s.pres ++ [(i + 1, if useDyn then Prov.normalized else Prov.raw)] }) (i + 1) := by
        refine ⟨hs1.1, ?_, hs1.2.2.1, hs1.2.2.2⟩
        intro p hp
        simp only [List.mem_append, List.mem_singleton] at hp
        rcases hp with hp | rfl
        · exact le_trans (h.2.1 p hp) (by omega)
        · exact le_refl (i + 1)
      by_cases hc3 : o (.overlayStage (i + 1))
      · rw [if_pos hc3]
        refine ⟨fun hc => Option.noConfusion hc, ?_⟩
        intro f hf
        cases hf
        exact hs2
      · rw [if_neg hc3]
        refine ⟨fun _ => ⟨?_, hs2.2.1, hs2.2.2.1, ?_⟩, ?_⟩
        · intro j hj
          simp only [List.mem_append, List.mem_singleton] at hj
          rcases hj with hj | rfl
          · exact hs2.1 j hj
          · exact le_refl (i + 1)
        · intro e he
          simp only [List.mem_append, List.mem_singleton] at he
          rcases he with he | rfl
          · exact hs2.2.2.2 e he
          · exact le_refl (i + 1)
        · intro f hf
          cases hf

theorem guiLoopGo_le (base : String) (useDyn : Bool) (o : GStep → Bool) :
    ∀ (r : ℕ) {i : ℕ} {s : GuiAcc}, GuiAccLE s i →
      ((guiLoopGo base useDyn o (List.range' i r) s).2 = none →
          GuiAccLE (guiLoopGo base useDyn o (List.range' i r) s).1 (i + r)) ∧
        ∀ f, (guiLoopGo base useDyn o (List.range' i r) s).2 = some f →
          GuiAccLE (guiLoopGo base useDyn o (List.range' i r) s).1 (gStepStage f) := by
  intro r
  induction r with
  | zero =>
    intro i s h
    refine ⟨fun _ => guiAccLE_mono h (by omega), ?_⟩
    intro f hf
    simp only [List.range', guiLoopGo] at hf
    cases hf
  | succ r ih =>
    intro i s h
    have hr : List.range' i (r + 1) = i :: List.range' (i + 1) r := List.range'_succ i r 1
    rw [hr]
    have hit := guiStageK_le base useDyn o h
    cases hiteq : guiStageK base useDyn o i s with
    | mk si ri =>
      rw [hiteq] at hit
      cases ri with
      | none =>
        rw [guiLoopGo_cons_none hiteq]
        have hle := hit.1 rfl
        have hres := ih hle
        refine ⟨fun hn => guiAccLE_mono (hres.1 hn) (by omega), hres.2⟩
      | some f =>
        rw [guiLoopGo_cons_some hiteq]
        refine ⟨fun hc => Option.noConfusion hc, ?_⟩
        intro f' hf
        cases hf
        exact hit.2 f rfl

theorem guiAccZero_le (base initText : String) : GuiAccLE (guiAccZero base initText) 0 := by
  refine ⟨?_, ?_, ?_, ?_⟩ <;> intro x hx <;> simp [guiAccZero] at hx
  · subst hx; exact le_refl 0
  · subst hx; exact le_refl 0

/-- On any failure other than at the final concat step, the GUI run
returns immediately: no concat-list file, no concatenator invocation, no
final output, and no artifact or event above the failing stage. -/
theorem guiRun_fail_halt {base initText : String} {n : ℕ} {useDyn : Bool}
    {o : GStep → Bool} {st : GStep}
    (h : (guiRun base initText n useDyn o).failedAt = some st)
    (hst : st ≠ .concatStep) :
    (guiRun base initText n useDyn o).manifest = none ∧
      (guiRun base initText n useDyn o).concatInvoked = false ∧
      (guiRun base initText n useDyn o).finalWritten = false ∧
      GuiAccLE (guiRun base initText n useDyn o).acc (gStepStage st) := by
  rw [guiRun] at h ⊢
  by_cases h0 : o .layerZero
  · rw [if_pos h0] at h ⊢
    simp only [] at h
    cases h
    refine ⟨rfl, rfl, rfl, ?_⟩
    refine ⟨?_, ?_, ?_, ?_⟩ <;> intro x hx <;> simp [guiAccStart] at hx
  · rw [if_neg h0] at h ⊢
    cases heq : guiLoopGo base useDyn o (List.range n) (guiAccZero base initText) with
    | mk acc r =>
      rw [heq] at h
      have hrange : List.range n = List.range' 0 n := List.range_eq_range' n
      rw [hrange] at heq
      have hloop := guiLoopGo_le base useDyn o n (guiAccZero_le base initText)
      rw [heq] at hloop
      cases r with
      | some f =>
        simp only [guiRunAfter] at h
        cases h
        exact ⟨rfl, rfl, rfl, hloop.2 st rfl⟩
      | none =>
        simp only [guiRunAfter] at h ⊢
        by_cases hemp : acc.concatList.isEmpty
        · rw [if_pos hemp] at h
          simp at h
        · rw [if_neg hemp] at h
          by_cases hcs : o .concatStep
          · rw [if_pos hcs] at h
            simp only [] at h
            cases h
            exact absurd rfl hst
          · rw [if_neg hcs] at h
            simp at h

/-! ## Closed form of a fully successful GUI run -/

theorem guiStageK_none {base : String} {useDyn : Bool} (i : ℕ) (s : GuiAcc) :
    guiStageK base useDyn guiOracleNone i s =
      ({ s with
        layers := s.layers ++ [i + 1]
        pres := s.pres ++ [(i + 1, if useDyn then Prov.normalized else Prov.raw)]
        composites := s.composites ++ [⟨i + 1, if i = 0 then base else guiNumPath i, if useDyn then guiTmpDynPath (i + 1) else guiNumPath (i + 1)⟩]
        overlays := s.overlays ++ [⟨i + 1, guiNumPath (i + 1), guiStageLabel (i + 1), .copy⟩]
        concatList := s.concatList ++ [guiLayerPath (i + 1)] }, none) := by
  rw [guiStageK]
  simp [guiOracleNone]

theorem guiLoopGo_none {base : String} {useDyn : Bool} :
    ∀ (r i : ℕ) (s : GuiAcc),
      guiLoopGo base useDyn guiOracleNone (List.range' i r) s =
        ({ s with
          layers := s.layers ++ (List.range' i r).map (fun j => j + 1)
          pres := s.pres ++ (List.range' i r).map
            (fun j => (j + 1, if useDyn then Prov.normalized else Prov.raw))
          composites := s.composites ++ (List.range' i r).map
            (fun j => ⟨j + 1, if j = 0 then base else guiNumPath j, if useDyn then guiTmpDynPath (j + 1) else guiNumPath (j + 1)⟩)
          overlays := s.overlays ++ (List.range' i r).map
            (fun j => ⟨j + 1, guiNumPath (j + 1), guiStageLabel (j + 1), .copy⟩)
          concatList := s.concatList ++ (List.range' i r).map
            (fun j => guiLayerPath (j + 1)) }, none) := by
  intro r
  induction r with
  | zero =>
    intro i s
    simp [guiLoopGo, List.range']
  | succ r ih =>
    intro i s
    rw [List.range'_succ]
    rw [guiLoopGo_cons_none (guiStageK_none i s), ih (i + 1) _]
    simp [List.append_assoc]

/-- Closed form of a GUI run in which every step succeeds: layers 0
through `n`, the concat list in ascending stage order, the final output
written. -/
theorem guiRun_none (base initText : String) (n : ℕ) (useDyn : Bool) :
    guiRun base initText n useDyn guiOracleNone =
      ⟨⟨List.range (n + 1),
        (List.range n).map (fun j => (j + 1, if useDyn then Prov.normalized else Prov.raw)),
        (List.range n).map
          (fun j => ⟨j + 1, if j = 0 then base else guiNumPath j, if useDyn then guiTmpDynPath (j + 1) else guiNumPath (j + 1)⟩),
        ⟨0, base, initText, .reencodeAAC⟩ ::
          (List.range n).map (fun j => ⟨j + 1, guiNumPath (j + 1), guiStageLabel (j + 1), .copy⟩),
        (List.range (n + 1)).map guiLayerPath⟩,
       none, some ((List.range (n + 1)).map guiLayerPath), true, true⟩ := by
  have hloop : guiLoopGo base useDyn guiOracleNone (List.range n) (guiAccZero base initText) =
      (⟨List.range (n + 1),
        (List.range n).map (fun j => (j + 1, if useDyn then Prov.normalized else Prov.raw)),
        (List.range n).map
          (fun j => ⟨j + 1, if j = 0 then base else guiNumPath j, if useDyn then guiTmpDynPath (j + 1) else guiNumPath (j + 1)⟩),
        ⟨0, base, initText, .reencodeAAC⟩ ::
          (List.range n).map (fun j => ⟨j + 1, guiNumPath (j + 1), guiStageLabel (j + 1), .copy⟩),
        (List.range (n + 1)).map guiLayerPath⟩, none) := by
    rw [List.range_eq_range' n, guiLoopGo_none n 0 _]
    rw [← List.range_eq_range' n]
    have hlr : List.range (n + 1) = 0 :: (List.range n).map (fun j => j + 1) := by
      rw [List.range_succ_eq_map]
    rw [hlr]
    simp [guiAccZero, List.map_map]
  rw [guiRun, if_neg (by simp [guiOracleNone]), hloop]
  rw [show ∀ a : GuiAcc, guiRunAfter guiOracleNone (a, none) =
      (if a.concatList.isEmpty then ⟨a, none, none, false, false⟩
       else if guiOracleNone .concatStep then
         ⟨a, some .concatStep, some a.concatList, true, false⟩
       else ⟨a, none, some a.concatList, true, true⟩ : GuiResult)
    from fun a => rfl]
  rw [if_neg (by
    have hlr : List.range (n + 1) = 0 :: (List.range n).map (fun j => j + 1) := by
      rw [List.range_succ_eq_map]
    rw [hlr]
    simp)]
  rw [if_neg (by simp [guiOracleNone])]

/-! ## Failure-kind projections of the batch-script run -/

/-- An uncaught encode error kills the batch script before the manifest
is written or the concatenator is invoked. -/
theorem lsvmRun_encode_halt {src : String} {value : ℤ} {o : LsvmStep → Option ErrKind}
    {f : LsvmStep} (h : (lsvmRun src value o).failure = some (f, .encode)) :
    (lsvmRun src value o).manifest = none ∧
      (lsvmRun src value o).concatInvoked = false := by
  rw [lsvmRun] at h ⊢
  cases heq : lsvmLoopGo src o (List.range value.toNat) lsvmAccStart with
  | mk acc r =>
    rw [heq] at h
    cases r with
    | none => simp at h
    | some fe =>
      cases fe with
      | mk f' e' =>
        cases e' with
        | encode => exact ⟨rfl, rfl⟩
        | fnf => simp at h

/-- A caught FileNotFoundError breaks the loop, but the script still
writes the full manifest for `range(value + 1)` and invokes the
concatenator. -/
theorem lsvmRun_fnf_concat {src : String} {value : ℤ} {o : LsvmStep → Option ErrKind}
    {f : LsvmStep} (h : (lsvmRun src value o).failure = some (f, .fnf)) :
    (lsvmRun src value o).manifest
        = some ((List.range (value + 1).toNat).map lsvmLayerPath) ∧
      (lsvmRun src value o).concatInvoked = true := by
  rw [lsvmRun] at h ⊢
  cases heq : lsvmLoopGo src o (List.range value.toNat) lsvmAccStart with
  | mk acc r =>
    rw [heq] at h
    cases r with
    | none => simp at h
    | some fe =>
      cases fe with
      | mk f' e' =>
        cases e' with
        | encode => simp at h
        | fnf => exact ⟨rfl, rfl⟩

/-! ## A dynaudnorm failure implies normalization was enabled -/

theorem guiStageK_dyn_imp {base : String} {useDyn : Bool} {o : GStep → Bool}
    {i k : ℕ} {s : GuiAcc}
    (h : (guiStageK base useDyn o i s).2 = some (.dynStage k)) : useDyn = true := by
  rw [guiStageK] at h
  simp only [] at h
  by_cases hc1 : o (.compositeStage (i + 1))
  · rw [if_pos hc1] at h
    simp at h
  · rw [if_neg hc1] at h
    by_cases hc2 : useDyn ∧ o (.dynStage (i + 1))
    · exact hc2.1
    · rw [if_neg hc2] at h
      by_cases hc3 : o (.overlayStage (i + 1))
      · rw [if_pos hc3] at h
        simp at h
      · rw [if_neg hc3] at h
        simp at h

theorem guiLoopGo_dyn_imp {base : String} {useDyn : Bool} {o : GStep → Bool} :
    ∀ {l : List ℕ} {s : GuiAcc} {k : ℕ},
      (guiLoopGo base useDyn o l s).2 = some (.dynStage k) → useDyn = true := by
  intro l
  induction l with
  | nil =>
    intro s k h
    rw [guiLoopGo] at h
    cases h
  | cons i rest ih =>
    intro s k h
    cases hiteq : guiStageK base useDyn o i s with
    | mk s' r =>
      cases r with
      | none =>
        rw [guiLoopGo_cons_none hiteq] at h
        exact ih h
      | some f =>
        rw [guiLoopGo_cons_some hiteq] at h
        simp only [] at h
        cases h
        exact guiStageK_dyn_imp (show (guiStageK base useDyn o i s).2 = some (.dynStage k) by rw [hiteq])

/-- A reported dynaudnorm failure can only happen when normalization was
requested. -/
theorem guiRun_dyn_imp {base initText : String} {n : ℕ} {useDyn : Bool}
    {o : GStep → Bool} {k : ℕ}
    (h : (guiRun base initText n useDyn o).failedAt = some (.dynStage k)) :
    useDyn = true := by
  rw [guiRun] at h
  by_cases h0 : o .layerZero
  · rw [if_pos h0] at h
    simp at h
  · rw [if_neg h0] at h
    cases heq : guiLoopGo base useDyn o (List.range n) (guiAccZero base initText) with
    | mk acc r =>
      rw [heq] at h
      cases r with
      | some f =>
        simp only [guiRunAfter] at h
        cases h
        exact guiLoopGo_dyn_imp (show (guiLoopGo base useDyn o (List.range n) (guiAccZero base initText)).2 = some (.dynStage k) by rw [heq])
      | none =>
        simp only [guiRunAfter] at h
        by_cases hemp : acc.concatList.isEmpty
        · rw [if_pos hemp] at h
          simp at h
        · rw [if_neg hemp] at h
          by_cases hcs : o .concatStep
          · rw [if_pos hcs] at h
            simp at h
          · rw [if_neg hcs] at h
            simp at h

/-! ## Claims -/

/-- C1 (counterexample): in the batch script, a fully successful run with
`loop_count = 0` creates *no* layer artifacts at all — layer 0 is only
produced inside the first loop iteration, which never runs — while the
manifest handed to the concatenator still lists `layer0`.  This refutes
the claim that every successful run with non-negative `loop_count = N`
produces exactly N+1 layer artifacts. -/
theorem claim_C1_counterexample :
    (lsvmRun "input/clip.mp4" 0 lsvmOracleNone).failure = none ∧
      (lsvmRun "input/clip.mp4" 0 lsvmOracleNone).acc.layers = [] ∧
      (lsvmRun "input/clip.mp4" 0 lsvmOracleNone).manifest = some [lsvmLayerPath 0] := by
  refine ⟨rfl, rfl, ?_⟩
  rfl

/-- C1 (amended): a successful GUI run with any loop count `N ≥ 0`, and a
successful batch run with any `N ≥ 1`, produce exactly the `N + 1` layer
artifacts `layer0 … layerN`, and the concat manifest lists exactly those
`N + 1` layer paths in strictly ascending stage order with no gaps,
duplicates or reordering.  (In the batch variant with `N = 0` no
artifacts are produced, per the counterexample.) -/
theorem claim_C1_amended (src base initText : String) (N : ℕ) (useDyn : Bool) :
    ((guiRun base initText N useDyn guiOracleNone).acc.layers = List.range (N + 1)
      ∧ (guiRun base initText N useDyn guiOracleNone).manifest
          = some ((List.range (N + 1)).map guiLayerPath)
      ∧ (guiRun base initText N useDyn guiOracleNone).finalWritten = true
      ∧ ((List.range (N + 1)).map guiLayerPath).length = N + 1
      ∧ ((List.range (N + 1)).map guiLayerPath).Nodup
      ∧ ∀ i, i ≤ N → ((List.range (N + 1)).map guiLayerPath)[i]? = some (guiLayerPath i))
    ∧ (1 ≤ N →
        (lsvmRun src (N : ℤ) lsvmOracleNone).failure = none
        ∧ (lsvmRun src (N : ℤ) lsvmOracleNone).acc.layers = List.range (N + 1)
        ∧ (lsvmRun src (N : ℤ) lsvmOracleNone).manifest
            = some ((List.range (N + 1)).map lsvmLayerPath)
        ∧ ((List.range (N + 1)).map lsvmLayerPath).length = N + 1
        ∧ ((List.range (N + 1)).map lsvmLayerPath).Nodup
        ∧ ∀ i, i ≤ N → ((List.range (N + 1)).map lsvmLayerPath)[i]? = some (lsvmLayerPath i)) := by
  constructor
  · rw [guiRun_none]
    refine ⟨rfl, rfl, rfl, by simp, (List.nodup_range (N + 1)).map guiLayerPath_injective, ?_⟩
    intro i hi
    rw [List.getElem?_map, List.getElem?_range (by omega)]
    rfl
  · intro hN
    match N, hN with
    | M + 1, _ =>
      have hcast : ((M + 1 : ℕ) : ℤ) = (M : ℤ) + 1 := by push_cast; ring
      rw [hcast, lsvmRun_none src M]
      refine ⟨rfl, rfl, rfl, by simp,
        (List.nodup_range (M + 1 + 1)).map lsvmLayerPath_injective, ?_⟩
      intro i hi
      rw [List.getElem?_map, List.getElem?_range (by omega)]
      rfl

/-- C1 (witness): the amended claim at `N = 2` for both variants. -/
theorem claim_C1_witness :
    ((guiRun "input_temp/source_video.mp4" "1" 2 true guiOracleNone).acc.layers
        = List.range 3
      ∧ (guiRun "input_temp/source_video.mp4" "1" 2 true guiOracleNone).manifest
          = some ((List.range 3).map guiLayerPath)
      ∧ ((List.range 3).map guiLayerPath)[1]? = some (guiLayerPath 1))
    ∧ ((lsvmRun "input/clip.mp4" (2 : ℤ) lsvmOracleNone).acc.layers = List.range 3
      ∧ (lsvmRun "input/clip.mp4" (2 : ℤ) lsvmOracleNone).manifest
          = some ((List.range 3).map lsvmLayerPath)) := by
  have h := claim_C1_amended "input/clip.mp4" "input_temp/source_video.mp4" "1" 2 true
  have hl := h.2 (by omega)
  exact ⟨⟨h.1.1, h.1.2.1, h.1.2.2.2.2.2 1 (by omega)⟩, ⟨hl.2.1, hl.2.2.1⟩⟩

/-- C2 (counterexample): in the batch script, a FileNotFoundError
injected at stage 1 of a `loop_count = 2` run leaves the run failed at
stage 1, yet the script still writes the full three-entry manifest
(listing layers 1 and 2, which were never created) and invokes the
concatenator — refuting the claim that after any stage failure no
(partial) concatenation is performed. -/
theorem claim_C2_counterexample :
    (lsvmRun "input/clip.mp4" 2
        (fun s => if s = LsvmStep.compositeStage 1 then some ErrKind.fnf else none)).failure
        = some (.compositeStage 1, .fnf) ∧
      (lsvmRun "input/clip.mp4" 2
        (fun s => if s = LsvmStep.compositeStage 1 then some ErrKind.fnf else none)).concatInvoked
        = true ∧
      (lsvmRun "input/clip.mp4" 2
        (fun s => if s = LsvmStep.compositeStage 1 then some ErrKind.fnf else none)).manifest
        = some [lsvmLayerPath 0, lsvmLayerPath 1, lsvmLayerPath 2] ∧
      (lsvmRun "input/clip.mp4" 2
        (fun s => if s = LsvmStep.compositeStage 1 then some ErrKind.fnf else none)).acc.layers
        = [0] := by
  exact ⟨rfl, rfl, rfl, rfl⟩

/-- C2 (amended): after a stage failure no artifacts for stages above the
failing one exist in any variant.  In the GUI variant every stage failure
returns immediately: no concat-list file, no concatenator invocation, no
final output.  In the batch variant an uncaught encoder error halts the
script before the manifest and the concatenator; a caught
FileNotFoundError stops the loop but the script still writes the full
`N + 1`-entry manifest and invokes the concatenator. -/
theorem claim_C2_amended (src base initText : String) (value : ℤ) (n : ℕ) (useDyn : Bool)
    (o : LsvmStep → Option ErrKind) (og : GStep → Bool) :
    (∀ st : GStep, (guiRun base initText n useDyn og).failedAt = some st →
      st ≠ .concatStep →
        (guiRun base initText n useDyn og).manifest = none
        ∧ (guiRun base initText n useDyn og).concatInvoked = false
        ∧ (guiRun base initText n useDyn og).finalWritten = false
        ∧ GuiAccLE (guiRun base initText n useDyn og).acc (gStepStage st))
    ∧ (∀ f : LsvmStep, (lsvmRun src value o).failure = some (f, .encode) →
        (lsvmRun src value o).manifest = none
        ∧ (lsvmRun src value o).concatInvoked = false
        ∧ LsvmAccLE (lsvmRun src value o).acc (lsvmStepStage f))
    ∧ (∀ f : LsvmStep, (lsvmRun src value o).failure = some (f, .fnf) →
        LsvmAccLE (lsvmRun src value o).acc (lsvmStepStage f)
        ∧ (lsvmRun src value o).manifest
            = some ((List.range (value + 1).toNat).map lsvmLayerPath)
        ∧ (lsvmRun src value o).concatInvoked = true) := by
  refine ⟨?_, ?_, ?_⟩
  · intro st h hst
    exact guiRun_fail_halt h hst
  · intro f h
    obtain ⟨h1, h2⟩ := lsvmRun_encode_halt h
    exact ⟨h1, h2, lsvmRun_failure_le h⟩
  · intro f h
    obtain ⟨h1, h2⟩ := lsvmRun_fnf_concat h
    exact ⟨lsvmRun_failure_le h, h1, h2⟩

/-- C2 (witness): the amended claim at concrete failing runs — a GUI
overlay failure at stage 1 of a two-loop run, and a batch encoder failure
at stage 1 of a two-loop run. -/
theorem claim_C2_witness :
    ((guiRun "input_temp/source_video.mp4" "1" 2 true
        (fun s => s = GStep.overlayStage 1)).manifest = none
      ∧ (guiRun "input_temp/source_video.mp4" "1" 2 true
          (fun s => s = GStep.overlayStage 1)).concatInvoked = false
      ∧ GuiAccLE (guiRun "input_temp/source_video.mp4" "1" 2 true
          (fun s => s = GStep.overlayStage 1)).acc 1)
    ∧ ((lsvmRun "input/clip.mp4" 2
        (fun s => if s = LsvmStep.compositeStage 1 then some ErrKind.encode else none)).manifest
          = none
      ∧ (lsvmRun "input/clip.mp4" 2
          (fun s => if s = LsvmStep.compositeStage 1 then some ErrKind.encode else none)).concatInvoked
          = false
      ∧ LsvmAccLE (lsvmRun "input/clip.mp4" 2
          (fun s => if s = LsvmStep.compositeStage 1 then some ErrKind.encode else none)).acc 1) := by
  have hg := (claim_C2_amended "input/clip.mp4" "input_temp/source_video.mp4" "1" 2 2 true
      (fun s => if s = LsvmStep.compositeStage 1 then some ErrKind.encode else none)
      (fun s => s = GStep.overlayStage 1)).1 (.overlayStage 1) rfl (by decide)
  have hl := (claim_C2_amended "input/clip.mp4" "input_temp/source_video.mp4" "1" 2 2 true
      (fun s => if s = LsvmStep.compositeStage 1 then some ErrKind.encode else none)
      (fun s => s = GStep.overlayStage 1)).2.1 (.compositeStage 1) rfl
  exact ⟨⟨hg.1, hg.2.1, hg.2.2.2⟩, hl⟩

/-- C3 (confirmed): in every run of either variant, stage 0 performs no
grid compositing (every compositing record belongs to a stage `k ≥ 1`)
and only overlays the original source; the stage-1 compositor reads the
original source; and every stage-`k` compositor with `k ≥ 2` reads stage
`k - 1`'s numbered pre-label composite, which is never a labeled layer
artifact path. -/
theorem claim_C3 (src base initText : String) (value : ℤ) (n : ℕ) (useDyn : Bool)
    (o : LsvmStep → Option ErrKind) (og : GStep → Bool) :
    (∀ e ∈ (lsvmRun src value o).acc.composites,
      1 ≤ e.stage
      ∧ (e.stage = 1 → e.input = src)
      ∧ (2 ≤ e.stage → e.input = lsvmNumPath (e.stage - 1)
          ∧ ∀ j : ℕ, e.input ≠ lsvmLayerPath j))
    ∧ (∀ e ∈ (lsvmRun src value o).acc.overlays, e.stage = 0 → e.input = src)
    ∧ (∀ e ∈ (guiRun base initText n useDyn og).acc.composites,
      1 ≤ e.stage
      ∧ (e.stage = 1 → e.input = base)
      ∧ (2 ≤ e.stage → e.input = guiNumPath (e.stage - 1)
          ∧ ∀ j : ℕ, e.input ≠ guiLayerPath j))
    ∧ (∀ e ∈ (guiRun base initText n useDyn og).acc.overlays,
        e.stage = 0 → e.input = base) := by
  have hl := lsvmRun_ok src value o
  have hg := guiRun_ok base initText n useDyn og
  refine ⟨?_, ?_, ?_, ?_⟩
  · intro e he
    obtain ⟨h1, h2, h3, -⟩ := hl.1 e he
    refine ⟨h1, h2, fun hk => ?_⟩
    have hin := h3 hk
    rw [hin]
    exact ⟨rfl, fun j => lsvmNumPath_ne_layerPath (e.stage - 1) j⟩
  · intro e he h0
    exact ((hl.2 e he).1 h0).1
  · intro e he
    obtain ⟨h1, h2, h3, -⟩ := hg.1 e he
    refine ⟨h1, h2, fun hk => ?_⟩
    have hin := h3 hk
    rw [hin]
    exact ⟨rfl, fun j => guiNumPath_ne_layerPath (e.stage - 1) j⟩
  · intro e he h0
    exact ((hg.2.1 e he).1 h0).1

/-- C3 (witness): the stage-2 compositing record of a successful
two-loop batch run reads `output/1.mp4`, the stage-1 pre-label composite,
and that path is no layer path; the stage-1 record reads the source. -/
theorem claim_C3_witness :
    (1 ≤ (2 : ℕ)
      ∧ ((2 : ℕ) = 1 → lsvmNumPath 1 = "input/clip.mp4")
      ∧ (2 ≤ (2 : ℕ) → lsvmNumPath 1 = lsvmNumPath (2 - 1)
          ∧ ∀ j : ℕ, lsvmNumPath 1 ≠ lsvmLayerPath j))
    ∧ (1 ≤ (1 : ℕ)
      ∧ ((1 : ℕ) = 1 → "input/clip.mp4" = "input/clip.mp4")) := by
  have h := (claim_C3 "input/clip.mp4" "input_temp/source_video.mp4" "1" 2 2 true
      lsvmOracleNone guiOracleNone).1
  have h2 := h ⟨2, lsvmNumPath 1, lsvmNumPath 2⟩ (by decide)
  have h1 := h ⟨1, "input/clip.mp4", lsvmNumPath 1⟩ (by decide)
  exact ⟨h2, h1.1, h1.2.1⟩

/-- C4 (code-bug evaluation): in the batch script the first
scientific-notation stage, layer 21, is labeled with the notation of
`4 ^ 22` — the counter is incremented *before* the power is taken — and
not with the notation of `4 ^ 21` that the claim (and the GUI variant)
prescribe.  The GUI label for stage 21 is the scientific notation of
`4 ^ 21`: it matches the digit-shape regular expression, its exponent is
the floor of log10, and its reconstructed value is exact here (so within
one part in `10 ^ 12`). -/
theorem claim_C4_eval :
    lsvmStageLabel 21 = "1.759218604441e+13"
    ∧ sciLabel (4 ^ 21) = "4.398046511104e+12"
    ∧ lsvmStageLabel 21 ≠ sciLabel (4 ^ 21)
    ∧ guiStageLabel 21 = sciLabel (4 ^ 21)
    ∧ matchesSciShape (guiStageLabel 21) = true
    ∧ sciExp (4 ^ 21) = 12
    ∧ 10 ^ 12 ≤ mantissaInt (4 ^ 21)
    ∧ mantissaInt (4 ^ 21) < 10 ^ 13
    ∧ mantissaInt (4 ^ 21) * 10 ^ (sciExp (4 ^ 21) - 12) = 4 ^ 21 := by
  have hlog21 : Nat.log 10 (4 ^ 21) = 12 :=
    Nat.log_eq_of_pow_le_of_lt_pow (by norm_num) (by norm_num)
  have hlog22 : Nat.log 10 (4 ^ 22) = 13 :=
    Nat.log_eq_of_pow_le_of_lt_pow (by norm_num) (by norm_num)
  have hsci21 : sciLabel (4 ^ 21) = "4.398046511104e+12" := by
    rw [sciLabel_concrete hlog21]
    decide
  have hlsvm : lsvmStageLabel 21 = "1.759218604441e+13" := by
    rw [lsvmStageLabel_sci (by omega), sciLabel_concrete hlog22]
    decide
  have hgui : guiStageLabel 21 = sciLabel (4 ^ 21) := by
    rw [guiStageLabel, if_neg (by omega)]
  refine ⟨hlsvm, hsci21, ?_, hgui, ?_, hlog21, ?_, ?_, ?_⟩
  · rw [hlsvm, hsci21]
    decide
  · rw [hgui, hsci21]
    decide
  · exact mantissaInt_lower (by norm_num)
  · exact mantissaInt_upper (by norm_num)
  · rw [mantissaInt, sciExp, hlog21]
    decide

/-- C5 (confirmed): for every stage `k ≤ 20` (the threshold), the label
drawn at stage `k` is exactly `4 ^ k` rendered as a decimal integer with
a group separator every three digits: the rendered characters with the
commas removed read back as exactly `4 ^ k`, and the separator placement
is three digits per group from the right.  The GUI variant agrees for
every `1 ≤ k ≤ 20` (its stage-0 text is the user's initial text, `1` by
default).  In particular the stage-10 label is `1,048,576` and the
stage-0 label is `1`. -/
theorem claim_C5 :
    (∀ k : ℕ, k ≤ 20 →
      lsvmStageLabel k = commaGroupNat (4 ^ k)
      ∧ valDigits (stripSep (lsvmStageLabel k)) = 4 ^ k
      ∧ sepOk (lsvmStageLabel k) = true)
    ∧ (∀ k : ℕ, 1 ≤ k → k ≤ 20 → guiStageLabel k = commaGroupNat (4 ^ k))
    ∧ lsvmStageLabel 0 = "1"
    ∧ lsvmStageLabel 10 = "1,048,576"
    ∧ guiStageLabel 10 = "1,048,576" := by
  have hcomma : ∀ k : ℕ, k ≤ 20 → lsvmStageLabel k = commaGroupNat (4 ^ k) := by
    intro k hk
    by_cases h0 : k = 0
    · subst h0
      decide
    · exact lsvmStageLabel_comma (by omega) hk
  refine ⟨?_, ?_, by decide, ?_, ?_⟩
  · intro k hk
    refine ⟨hcomma k hk, ?_, ?_⟩
    · rw [hcomma k hk, valDigits_stripSep_commaGroupNat]
    · rw [hcomma k hk]
      exact sepOk_commaGroupNat (4 ^ k)
  · intro k h1 h2
    rw [guiStageLabel, if_pos h2]
  · rw [hcomma 10 (by omega)]
    decide
  · rw [guiStageLabel, if_pos (by omega)]
    decide

/-- C5 (witness): the per-stage clauses at `k = 10`. -/
theorem claim_C5_witness :
    (lsvmStageLabel 10 = commaGroupNat (4 ^ 10)
      ∧ valDigits (stripSep (lsvmStageLabel 10)) = 4 ^ 10
      ∧ sepOk (lsvmStageLabel 10) = true)
    ∧ guiStageLabel 10 = commaGroupNat (4 ^ 10) := by
  exact ⟨claim_C5.1 10 (by omega), claim_C5.2.1 10 (by omega) (by omega)⟩

/-- C6 (counterexample): the layer-0 text-overlay pass of a successful
batch run re-encodes its audio to AAC at 44100 Hz instead of
stream-copying it (`acodec='aac', ar='44100'` in `LSVM.py`;
`gui.py` marks the same choice with a comment saying the first layer is
re-encoded), refuting the claim that the overlay step of *every* stage
passes audio through as a stream copy. -/
theorem claim_C6_counterexample :
    (lsvmRun "input/clip.mp4" 1 lsvmOracleNone).acc.overlays.head?
      = some ⟨0, "input/clip.mp4", "1", .reencodeAAC⟩
    ∧ AudioMode.reencodeAAC ≠ AudioMode.copy := by
  exact ⟨rfl, by decide⟩

/-- C6 (amended): in every run of either variant, the text-overlay pass
of every stage `k ≥ 1` passes audio through as a stream copy
(`c:a copy`), while the stage-0 overlay re-encodes the audio to AAC. -/
theorem claim_C6_amended (src base initText : String) (value : ℤ) (n : ℕ) (useDyn : Bool)
    (o : LsvmStep → Option ErrKind) (og : GStep → Bool) :
    (∀ e ∈ (lsvmRun src value o).acc.overlays,
      (1 ≤ e.stage → e.audio = .copy) ∧ (e.stage = 0 → e.audio = .reencodeAAC))
    ∧ ∀ e ∈ (guiRun base initText n useDyn og).acc.overlays,
      (1 ≤ e.stage → e.audio = .copy) ∧ (e.stage = 0 → e.audio = .reencodeAAC) := by
  have hl := lsvmRun_ok src value o
  have hg := guiRun_ok base initText n useDyn og
  constructor
  · intro e he
    exact ⟨fun h1 => ((hl.2 e he).2 h1).2.2, fun h0 => ((hl.2 e he).1 h0).2.2⟩
  · intro e he
    exact ⟨fun h1 => ((hg.2.1 e he).2 h1).2.2, fun h0 => ((hg.2.1 e he).1 h0).2.2⟩

/-- C6 (witness): the amended claim at the stage-1 overlay record of a
successful one-loop batch run. -/
theorem claim_C6_witness :
    (1 ≤ (1 : ℕ) → OverlayEvent.audio ⟨1, lsvmNumPath 1, lsvmStageLabel 1, .copy⟩ = .copy)
    ∧ ((1 : ℕ) = 0 →
        OverlayEvent.audio ⟨1, lsvmNumPath 1, lsvmStageLabel 1, .copy⟩ = .reencodeAAC) := by
  exact (claim_C6_amended "input/clip.mp4" "input_temp/source_video.mp4" "1" 1 1 true
      lsvmOracleNone guiOracleNone).1
    ⟨1, lsvmNumPath 1, lsvmStageLabel 1, .copy⟩ (by decide)

/-- C7 (confirmed): in the grid compositor of both variants the four
copies receive start offsets exactly `0, delta, 2 delta, 3 delta` with
`delta = 0.03` seconds; each copy's video start equals its audio start
(lip-sync per copy); and the same volume multiplier is applied to every
copy's audio, inside the mix expression, before mixing. -/
theorem claim_C7 (vol : ℚ) :
    echoDelta = 3 / 100
    ∧ (gridCopies vol).map
        (fun c => (c.videoStart, audioStartOf c.audio, audioGainOf c.audio))
      = (List.range 4).map (fun j => ((j : ℚ) * echoDelta, (j : ℚ) * echoDelta, vol))
    ∧ finalAudioMix vol = (gridCopies vol).map GridCopy.audio
    ∧ (gridCopies vol).length = 4 := by
  refine ⟨rfl, ?_, rfl, rfl⟩
  simp [gridCopies, echoDelta, audioStartOf, audioGainOf, List.range_succ]
  norm_num

/-- C8 (confirmed): in every GUI run, every canonical pre-label artifact
carries `normalized` provenance exactly when dynaudnorm is enabled and
`raw` provenance otherwise; the file the overlay step reads and the file
the next stage's compositor reads are that canonical numbered path; a
dynaudnorm failure can only occur with normalization enabled and aborts
the run exactly like any other stage failure — no concat-list file, no
concatenator invocation, no final output, no artifacts above the failing
stage — never being silently skipped. -/
theorem claim_C8 (base initText : String) (n : ℕ) (useDyn : Bool) (o : GStep → Bool) :
    (∀ p ∈ (guiRun base initText n useDyn o).acc.pres,
      p.2 = (if useDyn then Prov.normalized else Prov.raw))
    ∧ (∀ e ∈ (guiRun base initText n useDyn o).acc.overlays,
        1 ≤ e.stage → e.input = guiNumPath e.stage)
    ∧ (∀ e ∈ (guiRun base initText n useDyn o).acc.composites,
        2 ≤ e.stage → e.input = guiNumPath (e.stage - 1))
    ∧ ∀ k : ℕ, (guiRun base initText n useDyn o).failedAt = some (.dynStage k) →
        useDyn = true
        ∧ (guiRun base initText n useDyn o).manifest = none
        ∧ (guiRun base initText n useDyn o).concatInvoked = false
        ∧ (guiRun base initText n useDyn o).finalWritten = false
        ∧ GuiAccLE (guiRun base initText n useDyn o).acc k := by
  have hg := guiRun_ok base initText n useDyn o
  refine ⟨?_, ?_, ?_, ?_⟩
  · intro p hp
    exact (hg.2.2 p hp).2
  · intro e he h1
    exact ((hg.2.1 e he).2 h1).1
  · intro e he h2
    exact ((hg.1 e he).2.2.1 h2)
  · intro k h
    have hdyn := guiRun_dyn_imp h
    have hhalt := guiRun_fail_halt h (by intro hc; cases hc)
    exact ⟨hdyn, hhalt.1, hhalt.2.1, hhalt.2.2.1, hhalt.2.2.2⟩

/-- C8 (witness): the confirmed facts at a concrete run — normalization
enabled, a dynaudnorm failure injected at stage 2 of a two-loop run. -/
theorem claim_C8_witness :
    ((1, Prov.normalized).2 = (if true then Prov.normalized else Prov.raw))
    ∧ (true = true
      ∧ (guiRun "input_temp/source_video.mp4" "1" 2 true
          (fun s => s = GStep.dynStage 2)).manifest = none
      ∧ (guiRun "input_temp/source_video.mp4" "1" 2 true
          (fun s => s = GStep.dynStage 2)).concatInvoked = false
      ∧ (guiRun "input_temp/source_video.mp4" "1" 2 true
          (fun s => s = GStep.dynStage 2)).finalWritten = false
      ∧ GuiAccLE (guiRun "input_temp/source_video.mp4" "1" 2 true
          (fun s => s = GStep.dynStage 2)).acc 2) := by
  have h := claim_C8 "input_temp/source_video.mp4" "1" 2 true
    (fun s => s = GStep.dynStage 2)
  exact ⟨h.1 (1, Prov.normalized) (by decide), h.2.2.2 2 rfl⟩

/-- C9 (counterexample): a batch run configured with the negative loop
count `-1` completes with no failure of any kind and produces no labels
at all (and an empty manifest) — there is no InvalidArgument error
anywhere in the code — refuting the claim that negative iterations fail
with InvalidArgument rather than silently producing no labels. -/
theorem claim_C9_counterexample :
    (lsvmRun "input/clip.mp4" (-1) lsvmOracleNone).failure = none
    ∧ (lsvmRun "input/clip.mp4" (-1) lsvmOracleNone).acc.overlays = []
    ∧ (lsvmRun "input/clip.mp4" (-1) lsvmOracleNone).acc.layers = []
    ∧ (lsvmRun "input/clip.mp4" (-1) lsvmOracleNone).manifest = some [] := by
  exact ⟨rfl, rfl, rfl, rfl⟩

/-- C9 (amended): the label computation never signals an error for any
stage of a run with non-negative loop count — a run with all external
steps succeeding completes with no failure and a label drawn on every
layer — while a negative loop count is silently clamped: the loop body
never runs, no layer or label is produced, no error (in particular no
InvalidArgument) is raised, and the script proceeds to write an empty
manifest. -/
theorem claim_C9_amended (src : String) (o : LsvmStep → Option ErrKind) (v : ℤ) (M : ℕ) :
    (v < 0 →
      (lsvmRun src v o).failure = none
      ∧ (lsvmRun src v o).acc.overlays = []
      ∧ (lsvmRun src v o).acc.layers = []
      ∧ (lsvmRun src v o).manifest = some [])
    ∧ ((lsvmRun src ((M : ℤ) + 1) lsvmOracleNone).failure = none
      ∧ ∀ e ∈ (lsvmRun src ((M : ℤ) + 1) lsvmOracleNone).acc.overlays,
          e.text = (if e.stage = 0 then "1" else lsvmStageLabel e.stage)) := by
  constructor
  · intro hv
    have h1 : v.toNat = 0 := by omega
    have h2 : (v + 1).toNat = 0 := by omega
    rw [lsvmRun, h1, h2]
    exact ⟨rfl, rfl, rfl, rfl⟩
  · rw [lsvmRun_none src M]
    refine ⟨rfl, ?_⟩
    intro e he
    simp only [List.mem_cons] at he
    rcases he with rfl | he
    · rfl
    · simp only [List.mem_map] at he
      obtain ⟨k, hk, rfl⟩ := he
      have hk1 : 1 ≤ k := (List.mem_range'_1.mp hk).1
      simp only []
      rw [if_neg (by omega)]

/-- C9 (witness): the amended claim at loop counts `-2` and `1`. -/
theorem claim_C9_witness :
    ((lsvmRun "input/clip.mp4" (-2) lsvmOracleNone).failure = none
      ∧ (lsvmRun "input/clip.mp4" (-2) lsvmOracleNone).acc.overlays = []
      ∧ (lsvmRun "input/clip.mp4" (-2) lsvmOracleNone).acc.layers = []
      ∧ (lsvmRun "input/clip.mp4" (-2) lsvmOracleNone).manifest = some [])
    ∧ (lsvmRun "input/clip.mp4" (((0 : ℕ) : ℤ) + 1) lsvmOracleNone).failure = none := by
  have h := claim_C9_amended "input/clip.mp4" lsvmOracleNone (-2) 0
  exact ⟨h.1 (by omega), h.2.1⟩

/-- C10 (confirmed): on every exit path of a GUI compositing stage —
normal completion, an exception at any point of the `try` block, or a
dynaudnorm failure — the `finally` block closes every clip variable of
`clips_to_close` that was assigned, and thereby every decode handle
opened during the stage; every assigned variable is either in
`clips_to_close` or is the `CompositeAudioClip` holder, which owns no
decode handle of its own. -/
theorem claim_C10 (ex : StageExit) :
    (∀ j : Fin 4, j ∈ openedReaders ex ↔ j ∈ closedReaders ex)
    ∧ (assignedSlots ex).all
        (fun s => closeList.contains s || s == ClipSlot.finalAudioVar) = true := by
  cases ex with
  | failOpen j => revert j; decide
  | failAudioVol => decide
  | failSetStart => decide
  | failGrid => decide
  | failAudioMix => decide
  | failAttach => decide
  | failWrite => decide
  | failDyn => decide
  | finished => decide

end LSVM
